import Mathlib

/-!
Verification development for the go-news repository.

The definitions below are a shallow embedding of the Go sources:

* `internal/model` (Article, ArticleStatus, Config rows),
* `internal/service` processor (`ProcessArticle`, `ProcessPendingArticles`,
  the concurrent batch/semaphore drain loop),
* `internal/service` feed ingestion (`FetchFeed` with link-keyed
  `FirstOrCreate` dedup),
* `internal/service` LLM gateway (`GetConfig`, `Chat`, `chatOpenAI`,
  `chatGoogle`).

Conventions: Go machine integers that never overflow in these code paths are
modelled as `Nat`; `time.Time` values are modelled as `Nat` instants;
`error` values are modelled as `String`; external effects (the Model Gateway
HTTP transport, `encoding/json` decoding of model replies) are explicit
function parameters; the gorm-backed store is a `List Article` and each gorm
query is translated to the corresponding list operation.
-/

/-! ### Data model (internal/model) -/

/-- ArticleStatus from internal/model: 0 = Pending, 1 = Processed, 2 = Filtered. -/
inductive ArticleStatus where
  | pending
  | processed
  | filtered
deriving DecidableEq, Repr

/-- Article row from internal/model. The gorm column defaults give a fresh row
`Status = 0` (pending) and a nil `ProcessedAt`, modelled by `Option Nat`. -/
structure Article where
  id : Nat
  feedId : Nat
  title : String
  link : String
  content : String
  pubDate : Nat
  status : ArticleStatus
  summary : String
  processedAt : Option Nat
deriving DecidableEq, Repr

/-- One row of the key/value Config table from internal/model. -/
structure ConfigRow where
  key : String
  value : String
deriving DecidableEq, Repr

/-! ### String helpers modelling the strings package

`strings.Contains` and `strings.ToLower` as used by the filter fallback in
`ProcessArticle`. Go lowercases full Unicode; the replies compared here only
exercise ASCII letters and CJK characters (which `Char.toLower` leaves
unchanged, as Go does). -/

/-- Whether the first character list starts with the second. -/
def leadsWith : List Char → List Char → Bool
  | _, [] => true
  | [], _ :: _ => false
  | c :: cs, d :: ds => c == d && leadsWith cs ds

/-- Whether the second character list occurs inside the first. -/
def hasSub : List Char → List Char → Bool
  | [], needle => needle.isEmpty
  | c :: cs, needle => leadsWith (c :: cs) needle || hasSub cs needle

/-- strings.Contains from the Go standard library. -/
def strContains (s sub : String) : Bool :=
  hasSub s.data sub.data

/-- strings.ToLower from the Go standard library (ASCII case folding). -/
def lowerStr (s : String) : String :=
  ⟨s.data.map Char.toLower⟩

/-! ### ProcessArticle (internal/service processor) -/

/-- FilterResult from the processor service: the structured value with json
keys worth and reason that the filter reply is decoded into. -/
structure FilterResult where
  worth : Bool
  reason : String
deriving DecidableEq, Repr

/-- The heuristic fallback of `ProcessArticle` when json.Unmarshal fails:
worth is the negation of (lowercased reply contains "不值得" or contains
"no"), exactly the boolean expression at processor.go lines 128-129. -/
def fallbackWorth (resp : String) : Bool :=
  !(strContains (lowerStr resp) "不值得") && !(strContains (lowerStr resp) "no")

/-- ProcessArticle, as a pure function of the article, the two Chat call
outcomes, and the decoder. `decodeFilter` stands for
`json.Unmarshal([]byte(filterResp), &result)` together with the struct it
leaves behind: the first component is whether the decode succeeded
(err == nil), the second the contents of `result` after the call - the
decoded value on success, and on failure whatever the best-effort decode
populated before erroring (encoding/json fills fields preceding a type
mismatch; a pure syntax error leaves the zero value). The failure branch of
the source overwrites only `result.Worth` with the heuristic, so the
residual Reason survives and is stored as the summary on the Filtered path.
The `summaryChat` argument is the outcome the second gateway call would
have; it is only examined on the worth-reading path, just as the call only
happens there in the source. A `.ok` result is the row passed to `db.Save`;
`.error` means `ProcessArticle` returned the error without saving. -/
def processArticle (decodeFilter : String → Bool × FilterResult)
    (filterChat : Except String String) (summaryChat : Except String String)
    (now : Nat) (a : Article) : Except String Article :=
  match filterChat with
  | .error e => .error e
  | .ok filterResp =>
    let decoded := decodeFilter filterResp
    let result : FilterResult :=
      if decoded.1 then decoded.2
      else { worth := fallbackWorth filterResp, reason := decoded.2.reason }
    if result.worth = false then
      .ok { a with status := .filtered, summary := result.reason, processedAt := some now }
    else
      match summaryChat with
      | .error e => .error e
      | .ok summary =>
        .ok { a with status := .processed, summary := summary, processedAt := some now }

/-! ### Store operations (gorm queries used by the pipeline) -/

/-- db.Save(article): gorm upserts by primary key; every row whose id matches
is replaced (ids are unique in any reachable store, so this is the single-row
update of the source). -/
def saveArticle (store : List Article) (a : Article) : List Article :=
  store.map (fun row => if row.id = a.id then a else row)

/-- Primary keys are pairwise distinct (the store's autoincrement invariant). -/
def idsNodup (store : List Article) : Prop :=
  (store.map Article.id).Nodup

/-- The rows matched by `Where("status = ?", StatusPending)`. -/
def pendingRows (store : List Article) : List Article :=
  store.filter (fun a => a.status = .pending)

/-- Number of Pending rows, i.e. the Count query opening ProcessPendingArticles. -/
def pendingCount (store : List Article) : Nat :=
  (pendingRows store).length

/-- Insert one article into a list sorted by descending pubDate. -/
def insertByDateDesc (a : Article) : List Article → List Article
  | [] => [a]
  | b :: bs => if b.pubDate < a.pubDate then a :: b :: bs else b :: insertByDateDesc a bs

/-- Sort by descending pubDate, modelling `Order("pub_date DESC")`. -/
def sortByDateDesc (rows : List Article) : List Article :=
  rows.foldr insertByDateDesc []

/-- The batch query of ProcessPendingArticles:
`Where(status = Pending).Order("pub_date DESC").Limit(limit).Find`. -/
def fetchPending (limit : Nat) (store : List Article) : List Article :=
  (sortByDateDesc (pendingRows store)).take limit

example : fetchPending 2
    [{ id := 1, feedId := 0, title := "", link := "a", content := "", pubDate := 5,
       status := .processed, summary := "", processedAt := some 0 },
     { id := 2, feedId := 0, title := "", link := "b", content := "", pubDate := 3,
       status := .pending, summary := "", processedAt := none },
     { id := 3, feedId := 0, title := "", link := "c", content := "", pubDate := 7,
       status := .pending, summary := "", processedAt := none }] =
    [{ id := 3, feedId := 0, title := "", link := "c", content := "", pubDate := 7,
       status := .pending, summary := "", processedAt := none },
     { id := 2, feedId := 0, title := "", link := "b", content := "", pubDate := 3,
       status := .pending, summary := "", processedAt := none }] := by decide

example : fallbackWorth "totally great" = true := by decide

example : fallbackWorth "真棒" = true := by decide

example : fallbackWorth "不值得一读" = false := by decide

example : fallbackWorth "NO way" = false := by decide

/-! ### LLM gateway (internal/service llm) -/

/-- LLMConfig assembled by GetConfig from the Config table. -/
structure LLMConfig where
  provider : String
  apiURL : String
  apiKey : String
  model : String
deriving DecidableEq, Repr

/-- The map built by GetConfig: Go ranges over the rows filling a map, so a
later row with the same key overwrites an earlier one, and a missing key
yields the empty string. -/
def configLookup (rows : List ConfigRow) (k : String) : String :=
  rows.foldl (fun acc row => if row.key = k then row.value else acc) ""

/-- GetConfig: read every Config row and project the four llm keys. -/
def getConfig (rows : List ConfigRow) : LLMConfig :=
  { provider := configLookup rows "llm_provider"
    apiURL := configLookup rows "llm_api_url"
    apiKey := configLookup rows "llm_api_key"
    model := configLookup rows "llm_model" }

/-- Message of the OpenAI-style wire format. -/
structure Message where
  role : String
  content : String
deriving DecidableEq, Repr

/-- The json body each adapter marshals, kept structurally: chatCompletions
carries model plus messages; generateContent carries contents as role/parts
pairs plus the optional systemInstruction text (omitted when the prompt is
empty, matching the omitempty nil pointer). -/
inductive ReqBody where
  | chatCompletions (model : String) (messages : List Message)
  | generateContent (contents : List (String × List String))
      (systemInstruction : Option String)
deriving DecidableEq, Repr

/-- An outbound HTTP request as built by the adapters. -/
structure HttpRequest where
  method : String
  url : String
  headers : List (String × String)
  body : ReqBody
deriving DecidableEq, Repr

/-- An HTTP response: status code and raw body text. -/
structure HttpResponse where
  status : Nat
  body : String
deriving DecidableEq, Repr

/-- The HTTP client: `.error` is a transport failure from client.Do,
`.ok` a delivered response of any status code. -/
def Transport := HttpRequest → Except String HttpResponse

/-- ChatResponse of the OpenAI wire format: the list of choices, each
reduced to its message. -/
structure ChatResponse where
  choices : List Message
deriving DecidableEq, Repr

/-- GoogleChatResponse: the list of candidates, each reduced to the text
parts of its content. -/
structure GoogleChatResponse where
  candidates : List (List String)
deriving DecidableEq, Repr

/-- The POST request chatOpenAI builds: chat/completions URL, bearer-token
auth header, and the model/messages body with one system and one user
message. -/
def openAIRequest (cfg : LLMConfig) (prompt content : String) : HttpRequest :=
  { method := "POST"
    url := cfg.apiURL ++ "/chat/completions"
    headers := [("Content-Type", "application/json"),
                ("Authorization", "Bearer " ++ cfg.apiKey)]
    body := .chatCompletions cfg.model
      [{ role := "system", content := prompt }, { role := "user", content := content }] }

/-- chatOpenAI. `decodeChat` stands for json.Unmarshal into ChatResponse.
The first component collects every request handed to client.Do, so
theorems can state that exactly one POST of the given shape is issued.
The parse-failure error of the source interpolates the json error and the
raw body; the json error detail is internal to encoding/json, so the model
keeps the fixed prefix and the body. -/
def chatOpenAI (decodeChat : String → Option ChatResponse) (transport : Transport)
    (cfg : LLMConfig) (prompt content : String) :
    List HttpRequest × Except String String :=
  let req : HttpRequest := openAIRequest cfg prompt content
  match transport req with
  | .error e => ([req], .error e)
  | .ok resp =>
    match decodeChat resp.body with
    | none => ([req], .error ("解析响应失败, body: " ++ resp.body))
    | some chatResp =>
      match chatResp.choices with
      | [] => ([req], .error "no response from LLM")
      | m :: _ => ([req], .ok m.content)

/-- The POST request chatGoogle builds: the generateContent URL from base,
model and key; the body holds one user content with one text part, and the
systemInstruction only when the prompt is non-empty. -/
def googleRequest (cfg : LLMConfig) (prompt content : String) : HttpRequest :=
  { method := "POST"
    url := cfg.apiURL ++ "/v1beta/models/" ++ cfg.model ++ ":generateContent?key=" ++ cfg.apiKey
    headers := [("Content-Type", "application/json")]
    body := .generateContent [("user", [content])]
      (if prompt = "" then none else some prompt) }

/-- chatGoogle. Errors when the decoded response has no candidates or the
first candidate has no parts. -/
def chatGoogle (decodeGoogle : String → Option GoogleChatResponse) (transport : Transport)
    (cfg : LLMConfig) (prompt content : String) :
    List HttpRequest × Except String String :=
  let req : HttpRequest := googleRequest cfg prompt content
  match transport req with
  | .error e => ([req], .error e)
  | .ok resp =>
    match decodeGoogle resp.body with
    | none => ([req], .error ("解析响应失败, body: " ++ resp.body))
    | some googleResp =>
      match googleResp.candidates with
      | [] => ([req], .error "no response from Google AI")
      | parts :: _ =>
        match parts with
        | [] => ([req], .error "no response from Google AI")
        | t :: _ => ([req], .ok t)

/-- Chat: read the configuration fresh from the store rows, then dispatch on
the provider: "google" selects chatGoogle, every other value the OpenAI
compatible adapter. -/
def chat (decodeChat : String → Option ChatResponse)
    (decodeGoogle : String → Option GoogleChatResponse) (transport : Transport)
    (rows : List ConfigRow) (prompt content : String) :
    List HttpRequest × Except String String :=
  let cfg := getConfig rows
  if cfg.provider = "google" then
    chatGoogle decodeGoogle transport cfg prompt content
  else
    chatOpenAI decodeChat transport cfg prompt content

/-! ### Feed ingestion (internal/service feed) -/

/-- One item of a successfully parsed remote feed: title, link, description
and the parsed publication time when present. -/
structure RemoteItem where
  title : String
  link : String
  description : String
  published : Option Nat
deriving DecidableEq, Repr

/-- parseTime: the feed-declared published time when parseable, otherwise
the ingestion wall clock. -/
def parseTime (now : Nat) (item : RemoteItem) : Nat :=
  match item.published with
  | some t => t
  | none => now

/-- The Article literal FetchFeed builds for a remote item; Status and
Summary take their Go zero values and ProcessedAt is nil. `idv` is the
primary key the store would assign on insertion. -/
def mkArticle (idv feedId now : Nat) (item : RemoteItem) : Article :=
  { id := idv
    feedId := feedId
    title := item.title
    link := item.link
    content := item.description
    pubDate := parseTime now item
    status := .pending
    summary := ""
    processedAt := none }

/-- `Where("link = ?", link).FirstOrCreate`: keyed by link, insert only when
absent; the boolean is RowsAffected > 0, i.e. whether a row was created. -/
def firstOrCreate (store : List Article) (a : Article) : List Article × Bool :=
  if store.any (fun row => row.link = a.link) then (store, false) else (store ++ [a], true)

/-- The item loop of FetchFeed: FirstOrCreate each derived article,
counting only actual insertions; `nextId` is the key the store would assign
to the next inserted row. -/
def fetchFeedLoop (feedId now : Nat) :
    List RemoteItem → List Article → Nat → Nat → List Article × Nat × Nat
  | [], store, nextId, count => (store, nextId, count)
  | item :: rest, store, nextId, count =>
    let created := firstOrCreate store (mkArticle nextId feedId now item)
    if created.2 then fetchFeedLoop feedId now rest created.1 (nextId + 1) (count + 1)
    else fetchFeedLoop feedId now rest created.1 nextId count

/-- FetchFeed over an already fetched and parsed item list. Returns the
store, the next free primary key and the new-item count (the function's int
result). The transport/parse failure branch of the source returns before
this loop, so it is outside this model. -/
def fetchFeed (feedId now : Nat) (items : List RemoteItem)
    (store0 : List Article) (nextId0 : Nat) : List Article × Nat × Nat :=
  fetchFeedLoop feedId now items store0 nextId0 0

example :
    (fetchFeed 7 100 [⟨"t1", "l1", "d1", some 5⟩, ⟨"t2", "l1", "d2", none⟩] [] 1).2.2 = 1 := by
  decide

example :
    (fetchFeed 7 100 [⟨"t1", "l1", "d1", some 5⟩, ⟨"t2", "l2", "d2", none⟩] [] 1).1 =
    [mkArticle 1 7 100 ⟨"t1", "l1", "d1", some 5⟩, mkArticle 2 7 100 ⟨"t2", "l2", "d2", none⟩] := by
  decide

/-! ### Store-level pipeline machine

The operations that ever touch an Article row: ingestion inserts fresh
Pending rows through FirstOrCreate, and drain workers save the outcome of
ProcessArticle. Drains overlap in the source - the cron trigger fires every
interval with no overlap guard and the HTTP handler starts another drain in
a fresh goroutine - and a worker checks Pending only when its batch is
fetched: the db.Save closing ProcessArticle is unconditional. The machine
therefore separates the two: `fetch` records a snapshot of a row that is
Pending at that moment into the in-flight set, and `save` later writes the
processed snapshot back by primary key, whatever the row holds by then.
Failed ProcessArticle calls save nothing (`drop`). -/

/-- The shared store together with the Pending-row snapshots held by
in-flight workers of any concurrently running drains. -/
structure PipeState where
  store : List Article
  inflight : List Article
deriving DecidableEq, Repr

/-- One operation of the pipeline against the shared store. -/
inductive PipeStep (decodeFilter : String → Bool × FilterResult) :
    PipeState → PipeState → Prop where
  | ingest (s : PipeState) (idv feedId now : Nat) (item : RemoteItem) :
      (∀ row ∈ s.store, row.id ≠ idv) →
      PipeStep decodeFilter s
        { s with store := (firstOrCreate s.store (mkArticle idv feedId now item)).1 }
  | fetch (s : PipeState) (a : Article) :
      a ∈ s.store → a.status = ArticleStatus.pending →
      PipeStep decodeFilter s { s with inflight := a :: s.inflight }
  | save (s : PipeState) (a a' : Article) (filterChat summaryChat : Except String String)
      (now : Nat) :
      a ∈ s.inflight →
      processArticle decodeFilter filterChat summaryChat now a = .ok a' →
      PipeStep decodeFilter s
        { s with store := saveArticle s.store a', inflight := s.inflight.erase a }
  | drop (s : PipeState) (a : Article) :
      a ∈ s.inflight →
      PipeStep decodeFilter s { s with inflight := s.inflight.erase a }

/-- States reachable from the empty store under pipeline operations. -/
def PipeReach (decodeFilter : String → Bool × FilterResult) : PipeState → Prop :=
  Relation.ReflTransGen (PipeStep decodeFilter) ⟨[], []⟩

/-- The per-row invariant of the data model: processedAt unset iff Pending. -/
def storeInv (store : List Article) : Prop :=
  ∀ a ∈ store, (a.processedAt = none ↔ a.status = .pending)

/-! ### ProcessPendingArticles, functional drain model

For the store-level and termination claims, the per-batch concurrency may be
flattened: within a batch each worker owns a distinct row and writes only
that row, so the batch's net store effect is the fold of the per-item
effects. `ItemEnv` fixes, per loop round and per article id, the outcomes
the two gateway calls and the clock would deliver to that worker. -/

/-- The environment a worker observes: outcomes of its two Chat calls and
its time.Now reading. -/
structure ItemEnv where
  filterChat : Except String String
  summaryChat : Except String String
  now : Nat

/-- The body of one worker, as a store/counter transformer: a successful
ProcessArticle saves its row and bumps processed, a failing one saves
nothing and bumps failed. -/
def processOne (decodeFilter : String → Bool × FilterResult) (env : Nat → Nat → ItemEnv)
    (round : Nat) (acc : List Article × Nat × Nat) (a : Article) :
    List Article × Nat × Nat :=
  match processArticle decodeFilter (env round a.id).filterChat (env round a.id).summaryChat
      (env round a.id).now a with
  | .ok a' => (saveArticle acc.1 a', acc.2.1 + 1, acc.2.2)
  | .error _ => (acc.1, acc.2.1, acc.2.2 + 1)

/-- Net effect of one batch: fold the workers over the fetched rows. -/
def drainBatch (decodeFilter : String → Bool × FilterResult) (env : Nat → Nat → ItemEnv)
    (round : Nat) (batch : List Article) (store : List Article) (succ failed : Nat) :
    List Article × Nat × Nat :=
  batch.foldl (processOne decodeFilter env round) (store, succ, failed)

/-- The drain loop of ProcessPendingArticles: refetch Pending rows, stop on
an empty fetch, otherwise run the batch and loop. The source's `for` loop
has no other exit, so the model carries explicit fuel: `none` means the
loop was still running after `fuel` iterations. -/
def drainLoop (decodeFilter : String → Bool × FilterResult) (env : Nat → Nat → ItemEnv)
    (limit : Nat) :
    Nat → Nat → List Article → Nat → Nat → Option (List Article × Nat × Nat)
  | 0, _, _, _, _ => none
  | fuel + 1, round, store, succ, failed =>
    let batch := fetchPending limit store
    if batch.isEmpty then some (store, succ, failed)
    else
      let next := drainBatch decodeFilter env round batch store succ failed
      drainLoop decodeFilter env limit fuel (round + 1) next.1 next.2.1 next.2.2

/-- ProcessPendingArticles: count Pending rows, return at once when zero,
otherwise enter the drain loop. -/
def processPendingArticles (decodeFilter : String → Bool × FilterResult)
    (env : Nat → Nat → ItemEnv) (limit fuel : Nat) (store : List Article) :
    Option (List Article × Nat × Nat) :=
  if pendingCount store = 0 then some (store, 0, 0)
  else drainLoop decodeFilter env limit fuel 0 store 0 0

/-- ProcessPendingArticles terminates on the given store when some amount of
fuel suffices for the loop to exit. -/
def drainTerminates (decodeFilter : String → Bool × FilterResult)
    (env : Nat → Nat → ItemEnv) (limit : Nat) (store : List Article) : Prop :=
  ∃ fuel, (processPendingArticles decodeFilter env limit fuel store).isSome

/-! ### Concurrent pool transition system

Small-step model of one ProcessPendingArticles invocation: the driving
goroutine fetches batches, acquires a slot of the 3-slot semaphore before
spawning each worker, observes ctx.Done only at the per-item select, and
joins the WaitGroup both at the end of a batch and before returning
ctx.Err after observing cancellation. Workers hold their slot from before
spawn until completion; completion applies ProcessArticle's outcome. -/

/-- Snapshot of one invocation: the store, the current batch round, the
fetched-but-undispatched rows, the running workers tagged with the round
that dispatched them, the two counters, a ghost count of dispatches,
whether the context has been cancelled, whether the driving loop has
observed the cancellation, and the returned value (`some true` = returned
ctx.Err, `some false` = returned nil, `none` = still running). -/
structure PoolState where
  store : List Article
  round : Nat
  queue : List Article
  running : List (Nat × Article)
  succ : Nat
  failed : Nat
  dispatchCount : Nat
  cancelled : Bool
  observed : Bool
  retval : Option Bool
deriving DecidableEq, Repr

/-- The state in which an invocation starts. -/
def initPool (store : List Article) : PoolState :=
  { store := store, round := 0, queue := [], running := [], succ := 0, failed := 0,
    dispatchCount := 0, cancelled := false, observed := false, retval := none }

/-- The state a finishing worker leaves: release the slot and apply the
ProcessArticle outcome to store and counters. -/
def finishState (decodeFilter : String → Bool × FilterResult) (env : Nat → Nat → ItemEnv)
    (s : PoolState) (pre post : List (Nat × Article)) (r : Nat) (a : Article) : PoolState :=
  match processArticle decodeFilter (env r a.id).filterChat (env r a.id).summaryChat
      (env r a.id).now a with
  | .ok a' => { s with running := pre ++ post, store := saveArticle s.store a', succ := s.succ + 1 }
  | .error _ => { s with running := pre ++ post, failed := s.failed + 1 }

/-- One interleaving step of the invocation (or of the surrounding context
cancelling it). -/
inductive PoolStep (decodeFilter : String → Bool × FilterResult)
    (env : Nat → Nat → ItemEnv) (limit : Nat) : PoolState → PoolState → Prop where
  | fetchBatch (s : PoolState) :
      s.retval = none → s.observed = false → s.queue = [] → s.running = [] →
      fetchPending limit s.store ≠ [] →
      PoolStep decodeFilter env limit s
        { s with queue := fetchPending limit s.store, round := s.round + 1 }
  | fetchEmpty (s : PoolState) :
      s.retval = none → s.observed = false → s.queue = [] → s.running = [] →
      fetchPending limit s.store = [] →
      PoolStep decodeFilter env limit s { s with retval := some false }
  | dispatch (s : PoolState) (a : Article) (rest : List Article) :
      s.retval = none → s.observed = false → s.queue = a :: rest →
      s.running.length < 3 →
      PoolStep decodeFilter env limit s
        { s with queue := rest, running := s.running ++ [(s.round, a)],
                 dispatchCount := s.dispatchCount + 1 }
  | finish (s : PoolState) (pre post : List (Nat × Article)) (r : Nat) (a : Article) :
      s.retval = none → s.running = pre ++ (r, a) :: post →
      PoolStep decodeFilter env limit s (finishState decodeFilter env s pre post r a)
  | cancelCtx (s : PoolState) :
      s.cancelled = false →
      PoolStep decodeFilter env limit s { s with cancelled := true }
  | observe (s : PoolState) :
      s.retval = none → s.cancelled = true → s.observed = false → s.queue ≠ [] →
      PoolStep decodeFilter env limit s { s with observed := true }
  | returnCancelled (s : PoolState) :
      s.retval = none → s.observed = true → s.running = [] →
      PoolStep decodeFilter env limit s { s with retval := some true }

/-- States reachable within one invocation started on the given store. -/
def PoolReach (decodeFilter : String → Bool × FilterResult) (env : Nat → Nat → ItemEnv)
    (limit : Nat) (store : List Article) (s : PoolState) : Prop :=
  Relation.ReflTransGen (PoolStep decodeFilter env limit) (initPool store) s

/-! ### Basic lemmas about ProcessArticle -/

/-- The worth decision ProcessArticle extracts from a filter reply: the
decoded field when json.Unmarshal succeeds, the heuristic otherwise. -/
def worthOf (decodeFilter : String → Bool × FilterResult) (resp : String) : Bool :=
  if (decodeFilter resp).1 then (decodeFilter resp).2.worth else fallbackWorth resp

/-- A shared concrete pending article used to instantiate theorems. -/
def art0 : Article :=
  { id := 1, feedId := 1, title := "t", link := "l", content := "c", pubDate := 10,
    status := .pending, summary := "", processedAt := none }

/-- A second concrete pending article with a distinct id and link. -/
def art1 : Article :=
  { id := 2, feedId := 1, title := "u", link := "m", content := "d", pubDate := 20,
    status := .pending, summary := "", processedAt := none }

theorem processArticle_worth_true (decodeFilter : String → Bool × FilterResult)
    (resp : String) (sc : Except String String) (now : Nat) (a : Article)
    (h : worthOf decodeFilter resp = true) :
    processArticle decodeFilter (.ok resp) sc now a =
      match sc with
      | .error e => .error e
      | .ok summary =>
        .ok { a with status := .processed, summary := summary, processedAt := some now } := by
  unfold processArticle
  unfold worthOf at h
  cases hd : (decodeFilter resp).1 with
  | false => rw [hd] at h; simp at h; simp [hd, h]
  | true => rw [hd] at h; simp at h; simp [hd, h]

theorem processArticle_worth_false (decodeFilter : String → Bool × FilterResult)
    (resp : String) (sc : Except String String) (now : Nat) (a : Article)
    (h : worthOf decodeFilter resp = false) :
    processArticle decodeFilter (.ok resp) sc now a =
      .ok { a with status := .filtered,
                   summary := (decodeFilter resp).2.reason,
                   processedAt := some now } := by
  unfold processArticle
  unfold worthOf at h
  cases hd : (decodeFilter resp).1 with
  | false => rw [hd] at h; simp at h; simp [hd, h]
  | true => rw [hd] at h; simp at h; simp [hd, h]

/-! ### Claim theorems: ProcessArticle filter fallback and summary failure -/

/-- Models json.Unmarshal failing outright on every reply (e.g. a pure
syntax error): no field is populated, the struct keeps its zero value. -/
def decodeNever : String → Bool × FilterResult :=
  fun _ => (false, { worth := false, reason := "" })

/-- A model reply in which a decodable reason field precedes a
type-mismatched worth field (a string where a bool is expected). -/
def spamReply : String := "\x7b\"reason\":\"spam\",\"worth\":\"no\"\x7d"

/-- Models json.Unmarshal on `spamReply`: the decode errors on the worth
field, but has already best-effort-populated Reason = "spam" (Go's
encoding/json fills fields preceding a type mismatch and still returns the
error); every other reply fails with nothing populated. -/
def decodeSpam : String → Bool × FilterResult :=
  fun r =>
    if r = spamReply then (false, { worth := false, reason := "spam" })
    else (false, { worth := false, reason := "" })

/-- Counterexample to C4: on `spamReply` the decode fails but leaves the
residual reason "spam"; the reply contains "no", so the fallback deems it
not worth reading, and ProcessArticle saves it Filtered with the non-empty
summary "spam" - the fallback does not degrade to an empty reason. -/
theorem processArticle_fallback_nonempty_reason_counterexample :
    processArticle decodeSpam (.ok spamReply) (.ok "s") 0 art0 =
      .ok { art0 with status := .filtered, summary := "spam", processedAt := some 0 }
    ∧ "spam" ≠ "" := by
  exact ⟨rfl, by decide⟩

/-- C4 (amended): when the filter reply does not decode as the structured
worth/reason value, the item is deemed not worth reading exactly when the
lowercased reply contains "不值得" or the substring "no"; a
marker-containing reply is saved Filtered with summary equal to the reason
residue the failed decode left in the struct (empty when nothing was
populated, possibly non-empty after a type-mismatch partial decode); a
reply with neither marker proceeds to the summary stage toward Processed;
and the fallback itself never produces an error: an error can only come
from the summary call. -/
theorem processArticle_fallback_heuristic
    (decodeFilter : String → Bool × FilterResult) (resp : String)
    (sc : Except String String) (now : Nat) (a : Article)
    (h : (decodeFilter resp).1 = false) :
    (fallbackWorth resp = false ↔
      (strContains (lowerStr resp) "不值得" || strContains (lowerStr resp) "no") = true)
    ∧ ((strContains (lowerStr resp) "不值得" || strContains (lowerStr resp) "no") = true →
        processArticle decodeFilter (.ok resp) sc now a =
          .ok { a with status := .filtered, summary := (decodeFilter resp).2.reason, processedAt := some now })
    ∧ ((strContains (lowerStr resp) "不值得" || strContains (lowerStr resp) "no") = false →
        ∀ summary, processArticle decodeFilter (.ok resp) (.ok summary) now a =
          .ok { a with status := .processed, summary := summary, processedAt := some now })
    ∧ (∀ e, processArticle decodeFilter (.ok resp) sc now a = .error e →
        sc = .error e) := by
  refine ⟨?_, ?_, ?_, ?_⟩
  · unfold fallbackWorth
    cases hA : strContains (lowerStr resp) "不值得" <;>
      cases hB : strContains (lowerStr resp) "no" <;> simp
  · intro hmark
    have hw : worthOf decodeFilter resp = false := by
      unfold worthOf; rw [h]
      unfold fallbackWorth
      rcases Bool.or_eq_true_iff.mp hmark with hA | hB
      · simp [hA]
      · simp [hB]
    exact processArticle_worth_false decodeFilter resp sc now a hw
  · intro hmark summary
    have hw : worthOf decodeFilter resp = true := by
      unfold worthOf; rw [h]
      unfold fallbackWorth
      have hA : strContains (lowerStr resp) "不值得" = false := by
        cases hA : strContains (lowerStr resp) "不值得" <;> simp_all
      have hB : strContains (lowerStr resp) "no" = false := by
        cases hB : strContains (lowerStr resp) "no" <;> simp_all
      simp [hA, hB]
    have := processArticle_worth_true decodeFilter resp (.ok summary) now a hw
    rw [this]
  · intro e herr
    cases hw : worthOf decodeFilter resp with
    | false =>
        rw [processArticle_worth_false decodeFilter resp sc now a hw] at herr
        exact absurd herr (by simp)
    | true =>
        rw [processArticle_worth_true decodeFilter resp sc now a hw] at herr
        cases sc with
        | error e2 => simpa using herr
        | ok s => exact absurd herr (by simp)

/-- Witness for C4 (amended) at the reply "NO", which json-decoding rejects
with nothing populated: the fallback marks it Filtered, and the residual
(zero-valued) reason gives an empty summary. -/
theorem processArticle_fallback_heuristic_witness :
    processArticle decodeNever (.ok "NO") (.ok "s") 0 art0 =
      .ok { art0 with status := .filtered, summary := (decodeNever "NO").2.reason, processedAt := some 0 } :=
  (processArticle_fallback_heuristic decodeNever "NO" (.ok "s") 0 art0 rfl).2.1
    (by decide)

/-- Counterexample to C10: the fallback-filtered article for `spamReply`
carries the non-empty summary "spam" - the reason residue of the partial
decode, not the empty string. -/
theorem processArticle_fallback_filtered_nonempty_summary_counterexample :
    processArticle decodeSpam (.ok spamReply) (.error "e") 5 art1 =
      .ok { art1 with status := .filtered, summary := "spam", processedAt := some 5 }
    ∧ ¬ ({ art1 with status := .filtered, summary := "spam", processedAt := some 5 } : Article).summary = "" := by
  exact ⟨rfl, by decide⟩

/-- C10 (amended): a fallback-filtered article (filter reply undecodable,
heuristic says not worth reading) is saved Filtered with summary equal to
the reason residue the failed decode left in the struct - the empty string
whenever the decode populated nothing, but possibly non-empty after a
type-mismatch partial decode; the raw model reply itself is discarded. -/
theorem processArticle_fallback_filtered_residual_summary
    (decodeFilter : String → Bool × FilterResult) (resp : String)
    (sc : Except String String) (now : Nat) (a : Article)
    (h : (decodeFilter resp).1 = false) (h2 : fallbackWorth resp = false) :
    processArticle decodeFilter (.ok resp) sc now a =
      .ok { a with status := .filtered, summary := (decodeFilter resp).2.reason, processedAt := some now } := by
  have hw : worthOf decodeFilter resp = false := by
    unfold worthOf; rw [h]; exact h2
  exact processArticle_worth_false decodeFilter resp sc now a hw

/-- Witness for C10 (amended) at the undecodable reply "不值得看", whose
failed decode populates nothing, so the saved summary is empty. -/
theorem processArticle_fallback_filtered_residual_summary_witness :
    processArticle decodeNever (.ok "不值得看") (.error "e") 3 art1 =
      .ok { art1 with status := .filtered, summary := (decodeNever "不值得看").2.reason, processedAt := some 3 } :=
  processArticle_fallback_filtered_residual_summary decodeNever "不值得看"
    (.error "e") 3 art1 rfl (by decide)

/-- C6: when the item was deemed worth reading and the summary-stage Chat
call errors, ProcessArticle returns that error and nothing is saved: the
worker bumps only the failed counter and leaves the store - hence the
article's Pending status, summary and processed timestamp - untouched. -/
theorem processArticle_summary_error_no_write
    (decodeFilter : String → Bool × FilterResult) (resp e : String) (now : Nat) (a : Article)
    (hworth : worthOf decodeFilter resp = true) :
    processArticle decodeFilter (.ok resp) (.error e) now a = .error e
    ∧ (∀ (env : Nat → Nat → ItemEnv) (round : Nat) (store : List Article) (succ failed : Nat),
        (env round a.id).filterChat = .ok resp →
        (env round a.id).summaryChat = .error e →
        (env round a.id).now = now →
        processOne decodeFilter env round (store, succ, failed) a = (store, succ, failed + 1)) := by
  have hmain : processArticle decodeFilter (.ok resp) (.error e) now a = .error e := by
    rw [processArticle_worth_true decodeFilter resp (.error e) now a hworth]
  refine ⟨hmain, ?_⟩
  intro env round store succ failed hf hs hn
  unfold processOne
  rw [hf, hs, hn, hmain]

/-- Witness for C6: a decoder accepting the reply as worth reading, a
failing summary call, and a concrete worker environment. -/
theorem processArticle_summary_error_no_write_witness :
    processArticle (fun _ => (true, (⟨true, "r"⟩ : FilterResult))) (.ok "yes") (.error "boom") 5 art0 = .error "boom"
    ∧ processOne (fun _ => (true, (⟨true, "r"⟩ : FilterResult)))
        (fun _ _ => ⟨.ok "yes", .error "boom", 5⟩) 0 ([art0], 4, 2) art0 = ([art0], 4, 3) := by
  have h := processArticle_summary_error_no_write (fun _ => (true, (⟨true, "r"⟩ : FilterResult))) "yes" "boom" 5 art0
    (by decide)
  exact ⟨h.1, h.2 (fun _ _ => ⟨.ok "yes", .error "boom", 5⟩) 0 [art0] 4 2 rfl rfl rfl⟩

/-! ### Claim theorems: Model Gateway wire behaviour -/

/-- Every branch of chatOpenAI issues exactly the one built request. -/
theorem chatOpenAI_requests (decodeChat : String → Option ChatResponse)
    (transport : Transport) (cfg : LLMConfig) (prompt content : String) :
    (chatOpenAI decodeChat transport cfg prompt content).1 =
      [openAIRequest cfg prompt content] := by
  unfold chatOpenAI
  cases h : transport (openAIRequest cfg prompt content) with
  | error e => simp [h]
  | ok resp =>
    cases hd : decodeChat resp.body with
    | none => simp [h, hd]
    | some chatResp => cases hc : chatResp.choices <;> simp [h, hd, hc]

/-- Every branch of chatGoogle issues exactly the one built request. -/
theorem chatGoogle_requests (decodeGoogle : String → Option GoogleChatResponse)
    (transport : Transport) (cfg : LLMConfig) (prompt content : String) :
    (chatGoogle decodeGoogle transport cfg prompt content).1 =
      [googleRequest cfg prompt content] := by
  unfold chatGoogle
  cases h : transport (googleRequest cfg prompt content) with
  | error e => simp [h]
  | ok resp =>
    cases hd : decodeGoogle resp.body with
    | none => simp [h, hd]
    | some googleResp =>
      rcases googleResp with ⟨_ | ⟨parts, rest⟩⟩
      · simp [h, hd]
      · cases parts <;> simp [h, hd]

/-- A decoder used as a concrete counterexample input: it accepts exactly
the body "resp-body" as a single-choice reply saying "hi". -/
def decodeHi : String → Option ChatResponse :=
  fun b => if b = "resp-body" then some ⟨[{ role := "assistant", content := "hi" }]⟩ else none

/-- A concrete provider configuration. -/
def cfg0 : LLMConfig :=
  { provider := "openai", apiURL := "https://api.example.com/v1", apiKey := "k", model := "m" }

/-- Counterexample to C8: a Chat call whose response carries the non-success
HTTP status 500 does not result in an error at all when the body decodes -
chatOpenAI returns the reply as a success, so no error embedding the status
code and body is produced. -/
theorem chatOpenAI_nonsuccess_status_counterexample :
    (chatOpenAI decodeHi (fun _ => .ok { status := 500, body := "resp-body" })
      cfg0 "p" "c").2 = .ok "hi" := by
  rfl

/-- C8 (amended): the chat adapters never inspect the HTTP status code -
their outcome is a function of the response body alone, so the same body
gives the same outcome under any two statuses; a body that fails to decode
yields the parse error embedding the raw body (not the status), and a
decodable body yields the empty-choices error or a success even when the
status is non-success. -/
theorem chat_adapters_ignore_status (decodeChat : String → Option ChatResponse)
    (decodeGoogle : String → Option GoogleChatResponse) (cfg : LLMConfig)
    (prompt content body : String) (s₁ s₂ : Nat) :
    ((chatOpenAI decodeChat (fun _ => .ok { status := s₁, body := body }) cfg prompt content).2 =
      (chatOpenAI decodeChat (fun _ => .ok { status := s₂, body := body }) cfg prompt content).2)
    ∧ ((chatGoogle decodeGoogle (fun _ => .ok { status := s₁, body := body }) cfg prompt content).2 =
      (chatGoogle decodeGoogle (fun _ => .ok { status := s₂, body := body }) cfg prompt content).2)
    ∧ (decodeChat body = none →
        (chatOpenAI decodeChat (fun _ => .ok { status := s₁, body := body }) cfg prompt content).2 =
          .error ("解析响应失败, body: " ++ body))
    ∧ (decodeGoogle body = none →
        (chatGoogle decodeGoogle (fun _ => .ok { status := s₁, body := body }) cfg prompt content).2 =
          .error ("解析响应失败, body: " ++ body)) := by
  refine ⟨rfl, rfl, ?_, ?_⟩
  · intro h
    unfold chatOpenAI
    simp [h]
  · intro h
    unfold chatGoogle
    simp [h]

/-- Witness for C8 (amended) at a decoder that rejects every body: the
status-500 response yields the parse error embedding the body. -/
theorem chat_adapters_ignore_status_witness :
    (chatOpenAI (fun _ => none) (fun _ => .ok { status := 500, body := "oops" })
      cfg0 "p" "c").2 = .error ("解析响应失败, body: " ++ "oops") :=
  (chat_adapters_ignore_status (fun _ => none) (fun _ => none) cfg0 "p" "c" "oops" 500 200).2.2.1
    rfl

/-- C9: Chat reads the provider configuration fresh from the store rows on
the call and dispatches on the provider: "google" yields exactly one POST to
base/v1beta/models/model:generateContent?key=key carrying the
systemInstruction/contents body, erroring on empty candidates or parts;
every other provider yields exactly one POST to base/chat/completions
carrying the model plus system/user messages body with a bearer-token auth
header, erroring with "no response from LLM" on empty choices. -/
theorem chat_protocol_selection
    (decodeChat : String → Option ChatResponse) (decodeGoogle : String → Option GoogleChatResponse)
    (transport : Transport) (rows : List ConfigRow) (prompt content : String) :
    ((getConfig rows).provider = "google" →
      chat decodeChat decodeGoogle transport rows prompt content =
        chatGoogle decodeGoogle transport (getConfig rows) prompt content)
    ∧ ((getConfig rows).provider ≠ "google" →
      chat decodeChat decodeGoogle transport rows prompt content =
        chatOpenAI decodeChat transport (getConfig rows) prompt content)
    ∧ (∀ cfg : LLMConfig,
        (chatGoogle decodeGoogle transport cfg prompt content).1 =
          [googleRequest cfg prompt content]
        ∧ (googleRequest cfg prompt content).method = "POST"
        ∧ (googleRequest cfg prompt content).url =
            cfg.apiURL ++ "/v1beta/models/" ++ cfg.model ++ ":generateContent?key=" ++ cfg.apiKey
        ∧ (googleRequest cfg prompt content).body =
            .generateContent [("user", [content])] (if prompt = "" then none else some prompt))
    ∧ (∀ cfg : LLMConfig,
        (chatOpenAI decodeChat transport cfg prompt content).1 =
          [openAIRequest cfg prompt content]
        ∧ (openAIRequest cfg prompt content).method = "POST"
        ∧ (openAIRequest cfg prompt content).url = cfg.apiURL ++ "/chat/completions"
        ∧ ("Authorization", "Bearer " ++ cfg.apiKey) ∈ (openAIRequest cfg prompt content).headers
        ∧ (openAIRequest cfg prompt content).body =
            .chatCompletions cfg.model
              [{ role := "system", content := prompt }, { role := "user", content := content }])
    ∧ (∀ (cfg : LLMConfig) (st : Nat) (body : String),
        decodeGoogle body = some { candidates := [] } →
        (chatGoogle decodeGoogle (fun _ => .ok { status := st, body := body })
          cfg prompt content).2 = .error "no response from Google AI")
    ∧ (∀ (cfg : LLMConfig) (st : Nat) (body : String) (rest : List (List String)),
        decodeGoogle body = some { candidates := [] :: rest } →
        (chatGoogle decodeGoogle (fun _ => .ok { status := st, body := body })
          cfg prompt content).2 = .error "no response from Google AI")
    ∧ (∀ (cfg : LLMConfig) (st : Nat) (body : String),
        decodeChat body = some { choices := [] } →
        (chatOpenAI decodeChat (fun _ => .ok { status := st, body := body })
          cfg prompt content).2 = .error "no response from LLM") := by
  refine ⟨?_, ?_, ?_, ?_, ?_, ?_, ?_⟩
  · intro h
    unfold chat
    simp [h]
  · intro h
    unfold chat
    simp [h]
  · intro cfg
    exact ⟨chatGoogle_requests decodeGoogle transport cfg prompt content, rfl, rfl, rfl⟩
  · intro cfg
    refine ⟨chatOpenAI_requests decodeChat transport cfg prompt content, rfl, rfl, ?_, rfl⟩
    unfold openAIRequest
    simp
  · intro cfg st body h
    unfold chatGoogle
    simp [h]
  · intro cfg st body rest h
    unfold chatGoogle
    simp [h]
  · intro cfg st body h
    unfold chatOpenAI
    simp [h]

/-- Concrete config rows selecting the google provider, including an
overwritten earlier provider row to exercise the last-write-wins map. -/
def rowsGoogle : List ConfigRow :=
  [{ key := "llm_provider", value := "openai" },
   { key := "llm_provider", value := "google" },
   { key := "llm_api_url", value := "https://g.example.com" },
   { key := "llm_api_key", value := "gk" },
   { key := "llm_model", value := "gemini" }]

/-- Witness for C9: on the google rows, Chat is the google adapter applied
to the configuration read from those rows. -/
theorem chat_protocol_selection_witness :
    chat (fun _ => none) (fun _ => none) (fun _ => .error "net") rowsGoogle "p" "c" =
      chatGoogle (fun _ => none) (fun _ => .error "net") (getConfig rowsGoogle) "p" "c" :=
  (chat_protocol_selection (fun _ => none) (fun _ => none) (fun _ => .error "net")
    rowsGoogle "p" "c").1 (by decide)

/-! ### Claim theorems: FetchFeed dedup idempotence -/

theorem firstOrCreate_found {store : List Article} {a : Article}
    (h : store.any (fun row => row.link = a.link) = true) :
    firstOrCreate store a = (store, false) := by
  unfold firstOrCreate; simp [h]

theorem firstOrCreate_fresh {store : List Article} {a : Article}
    (h : store.any (fun row => row.link = a.link) = false) :
    firstOrCreate store a = (store ++ [a], true) := by
  unfold firstOrCreate; simp [h]

theorem fetchFeedLoop_cons_found {feedId now n c : Nat} {item : RemoteItem}
    {rest : List RemoteItem} {store : List Article}
    (h : store.any (fun row => row.link = (mkArticle n feedId now item).link) = true) :
    fetchFeedLoop feedId now (item :: rest) store n c =
      fetchFeedLoop feedId now rest store n c := by
  conv_lhs => unfold fetchFeedLoop
  rw [firstOrCreate_found h]
  rfl

theorem fetchFeedLoop_cons_fresh {feedId now n c : Nat} {item : RemoteItem}
    {rest : List RemoteItem} {store : List Article}
    (h : store.any (fun row => row.link = (mkArticle n feedId now item).link) = false) :
    fetchFeedLoop feedId now (item :: rest) store n c =
      fetchFeedLoop feedId now rest (store ++ [mkArticle n feedId now item]) (n + 1) (c + 1) := by
  conv_lhs => unfold fetchFeedLoop
  rw [firstOrCreate_fresh h]
  rfl

theorem fetchFeedLoop_store_ext (feedId now : Nat) (items : List RemoteItem) :
    ∀ (store : List Article) (n c : Nat),
    ∃ ext, (fetchFeedLoop feedId now items store n c).1 = store ++ ext := by
  induction items with
  | nil => intro store n c; exact ⟨[], by simp [fetchFeedLoop]⟩
  | cons item rest ih =>
    intro store n c
    cases h : store.any (fun row => row.link = (mkArticle n feedId now item).link) with
    | true => rw [fetchFeedLoop_cons_found h]; exact ih store n c
    | false =>
      rw [fetchFeedLoop_cons_fresh h]
      obtain ⟨ext, hext⟩ := ih (store ++ [mkArticle n feedId now item]) (n + 1) (c + 1)
      exact ⟨mkArticle n feedId now item :: ext, by simpa using hext⟩

theorem fetchFeedLoop_links_present (feedId now : Nat) (items : List RemoteItem) :
    ∀ (store : List Article) (n c : Nat) (item : RemoteItem), item ∈ items →
    item.link ∈ (fetchFeedLoop feedId now items store n c).1.map Article.link := by
  induction items with
  | nil => intro _ _ _ _ h; cases h
  | cons hd rest ih =>
    intro store n c item hmem
    cases h : store.any (fun row => row.link = (mkArticle n feedId now hd).link) with
    | true =>
      rw [fetchFeedLoop_cons_found h]
      rcases List.mem_cons.mp hmem with heq | htail
      · subst heq
        obtain ⟨row, hrow, hlink⟩ := List.any_eq_true.mp h
        obtain ⟨ext, hext⟩ := fetchFeedLoop_store_ext feedId now rest store n c
        rw [hext, List.map_append]
        refine List.mem_append_left _ (List.mem_map.mpr ⟨row, hrow, ?_⟩)
        simpa [mkArticle] using of_decide_eq_true hlink
      · exact ih store n c item htail
    | false =>
      rw [fetchFeedLoop_cons_fresh h]
      rcases List.mem_cons.mp hmem with heq | htail
      · subst heq
        obtain ⟨ext, hext⟩ :=
          fetchFeedLoop_store_ext feedId now rest (store ++ [mkArticle n feedId now item])
            (n + 1) (c + 1)
        rw [hext, List.map_append]
        refine List.mem_append_left _ ?_
        simp [mkArticle]
      · exact ih (store ++ [mkArticle n feedId now hd]) (n + 1) (c + 1) item htail

theorem fetchFeedLoop_all_found (feedId now : Nat) (items : List RemoteItem) :
    ∀ (store : List Article) (n c : Nat),
    (∀ item ∈ items, item.link ∈ store.map Article.link) →
    fetchFeedLoop feedId now items store n c = (store, n, c) := by
  induction items with
  | nil => intro store n c _; rfl
  | cons hd rest ih =>
    intro store n c hall
    have hmem : hd.link ∈ store.map Article.link := hall hd (List.mem_cons_self hd rest)
    obtain ⟨row, hrow, hlink⟩ := List.mem_map.mp hmem
    have h : store.any (fun r => r.link = (mkArticle n feedId now hd).link) = true :=
      List.any_eq_true.mpr ⟨row, hrow, by simp [mkArticle, hlink]⟩
    rw [fetchFeedLoop_cons_found h]
    exact ih store n c (fun item hmem2 => hall item (List.mem_cons_of_mem hd hmem2))

theorem fetchFeedLoop_links_nodup (feedId now : Nat) (items : List RemoteItem) :
    ∀ (store : List Article) (n c : Nat),
    (store.map Article.link).Nodup →
    ((fetchFeedLoop feedId now items store n c).1.map Article.link).Nodup := by
  induction items with
  | nil => intro store n c h; simpa [fetchFeedLoop] using h
  | cons hd rest ih =>
    intro store n c hnd
    cases h : store.any (fun row => row.link = (mkArticle n feedId now hd).link) with
    | true => rw [fetchFeedLoop_cons_found h]; exact ih store n c hnd
    | false =>
      rw [fetchFeedLoop_cons_fresh h]
      refine ih (store ++ [mkArticle n feedId now hd]) (n + 1) (c + 1) ?_
      rw [List.map_append]
      refine List.Nodup.append hnd (by simp) ?_
      intro l hl hl2
      simp only [List.map_cons, List.map_nil, List.mem_singleton] at hl2
      obtain ⟨row, hrow, hlink⟩ := List.mem_map.mp hl
      have hcontra : store.any (fun r => r.link = (mkArticle n feedId now hd).link) = true :=
        List.any_eq_true.mpr ⟨row, hrow, by simp [hlink, hl2]⟩
      rw [h] at hcontra
      cases hcontra

theorem fetchFeedLoop_count (feedId now : Nat) (items : List RemoteItem) :
    ∀ (store : List Article) (n c : Nat),
    (fetchFeedLoop feedId now items store n c).1.length + c =
      store.length + (fetchFeedLoop feedId now items store n c).2.2 := by
  induction items with
  | nil => intro store n c; simp [fetchFeedLoop]
  | cons hd rest ih =>
    intro store n c
    cases h : store.any (fun row => row.link = (mkArticle n feedId now hd).link) with
    | true => rw [fetchFeedLoop_cons_found h]; exact ih store n c
    | false =>
      rw [fetchFeedLoop_cons_fresh h]
      have := ih (store ++ [mkArticle n feedId now hd]) (n + 1) (c + 1)
      simp only [List.length_append, List.length_singleton] at this
      omega

/-- C7: for a successfully fetched item list, FetchFeed is idempotent per
link: afterwards the store still has at most one row per distinct link, the
returned count is exactly the number of rows this call created, and a
second sequential FetchFeed over the same item list creates no rows and
returns 0. -/
theorem fetchFeed_dedup_idempotent (feedId now feedId₂ now₂ : Nat)
    (items : List RemoteItem) (store₀ : List Article) (nextId₀ nextId₂ : Nat)
    (hnd : (store₀.map Article.link).Nodup) :
    ((fetchFeed feedId now items store₀ nextId₀).1.map Article.link).Nodup
    ∧ (fetchFeed feedId now items store₀ nextId₀).1.length =
        store₀.length + (fetchFeed feedId now items store₀ nextId₀).2.2
    ∧ fetchFeed feedId₂ now₂ items (fetchFeed feedId now items store₀ nextId₀).1 nextId₂ =
        ((fetchFeed feedId now items store₀ nextId₀).1, nextId₂, 0) := by
  refine ⟨?_, ?_, ?_⟩
  · exact fetchFeedLoop_links_nodup feedId now items store₀ nextId₀ 0 hnd
  · have := fetchFeedLoop_count feedId now items store₀ nextId₀ 0
    unfold fetchFeed
    omega
  · unfold fetchFeed
    exact fetchFeedLoop_all_found feedId₂ now₂ items _ nextId₂ 0
      (fun item hmem => fetchFeedLoop_links_present feedId now items store₀ nextId₀ 0 item hmem)

/-- Witness for C7 on a two-item feed with a duplicated link against an
empty store: one row per link, count 2, and the rerun returns 0. -/
theorem fetchFeed_dedup_idempotent_witness :
    (((fetchFeed 7 100 [⟨"t1", "l1", "d1", some 5⟩, ⟨"t2", "l2", "d2", none⟩,
        ⟨"t3", "l1", "d3", none⟩] [] 1).1.map Article.link).Nodup)
    ∧ (fetchFeed 7 100 [⟨"t1", "l1", "d1", some 5⟩, ⟨"t2", "l2", "d2", none⟩,
        ⟨"t3", "l1", "d3", none⟩] [] 1).1.length =
        0 + (fetchFeed 7 100 [⟨"t1", "l1", "d1", some 5⟩, ⟨"t2", "l2", "d2", none⟩,
          ⟨"t3", "l1", "d3", none⟩] [] 1).2.2
    ∧ fetchFeed 8 200 [⟨"t1", "l1", "d1", some 5⟩, ⟨"t2", "l2", "d2", none⟩,
        ⟨"t3", "l1", "d3", none⟩]
        (fetchFeed 7 100 [⟨"t1", "l1", "d1", some 5⟩, ⟨"t2", "l2", "d2", none⟩,
          ⟨"t3", "l1", "d3", none⟩] [] 1).1 9 =
        ((fetchFeed 7 100 [⟨"t1", "l1", "d1", some 5⟩, ⟨"t2", "l2", "d2", none⟩,
          ⟨"t3", "l1", "d3", none⟩] [] 1).1, 9, 0) := by
  have h := fetchFeed_dedup_idempotent 7 100 8 200
    [⟨"t1", "l1", "d1", some 5⟩, ⟨"t2", "l2", "d2", none⟩, ⟨"t3", "l1", "d3", none⟩]
    [] 1 9 (by decide)
  simpa using h

/-! ### Claim theorems: article lifecycle invariants -/

theorem saveArticle_map_id (store : List Article) (a : Article) :
    (saveArticle store a).map Article.id = store.map Article.id := by
  unfold saveArticle
  rw [List.map_map]
  refine List.map_congr_left ?_
  intro row _
  by_cases h : row.id = a.id <;> simp [h]

theorem mem_saveArticle_of_ne {store : List Article} {row : Article} (a : Article)
    (hrow : row ∈ store) (hne : row.id ≠ a.id) : row ∈ saveArticle store a := by
  unfold saveArticle
  exact List.mem_map.mpr ⟨row, hrow, by simp [hne]⟩

theorem mem_saveArticle (store : List Article) (a : Article) {row : Article}
    (hrow : row ∈ saveArticle store a) : row = a ∨ row ∈ store := by
  unfold saveArticle at hrow
  obtain ⟨r, hr, heq⟩ := List.mem_map.mp hrow
  by_cases h : r.id = a.id
  · rw [if_pos h] at heq; exact Or.inl heq.symm
  · rw [if_neg h] at heq; exact Or.inr (heq ▸ hr)

theorem processArticle_ok_fields (decodeFilter : String → Bool × FilterResult)
    (fc sc : Except String String) (now : Nat) (a a' : Article)
    (h : processArticle decodeFilter fc sc now a = .ok a') :
    a'.id = a.id ∧ a'.status ≠ ArticleStatus.pending ∧ a'.processedAt = some now := by
  cases fc with
  | error e => simp [processArticle] at h
  | ok resp =>
    cases hw : worthOf decodeFilter resp with
    | false =>
      rw [processArticle_worth_false decodeFilter resp sc now a hw] at h
      obtain rfl : _ = a' := Except.ok.inj h
      exact ⟨rfl, by simp, rfl⟩
    | true =>
      rw [processArticle_worth_true decodeFilter resp sc now a hw] at h
      cases sc with
      | error e => simp at h
      | ok summary =>
        obtain rfl : _ = a' := Except.ok.inj h
        exact ⟨rfl, by simp, rfl⟩

theorem mem_firstOrCreate (store : List Article) (a : Article) {row : Article}
    (hrow : row ∈ (firstOrCreate store a).1) : row ∈ store ∨ row = a := by
  unfold firstOrCreate at hrow
  by_cases h : store.any (fun r => r.link = a.link)
  · rw [if_pos h] at hrow; exact Or.inl hrow
  · rw [if_neg h] at hrow
    rcases List.mem_append.mp hrow with hl | hr
    · exact Or.inl hl
    · exact Or.inr (List.mem_singleton.mp hr)

theorem mem_firstOrCreate_left (store : List Article) (a : Article) {row : Article}
    (hrow : row ∈ store) : row ∈ (firstOrCreate store a).1 := by
  unfold firstOrCreate
  by_cases h : store.any (fun r => r.link = a.link)
  · rw [if_pos h]; exact hrow
  · rw [if_neg h]; exact List.mem_append_left _ hrow

theorem pipeStep_storeInv {decodeFilter : String → Bool × FilterResult}
    {s t : PipeState} (h : PipeStep decodeFilter s t)
    (hinv : storeInv s.store) : storeInv t.store := by
  cases h with
  | ingest idv feedId now item hfresh =>
    intro row hrow
    rcases mem_firstOrCreate s.store (mkArticle idv feedId now item) hrow with hold | hnew
    · exact hinv row hold
    · subst hnew; simp [mkArticle]
  | fetch a hmem hpend => exact hinv
  | save a a' fc sc now hin hok =>
    intro row hrow
    rcases mem_saveArticle s.store a' hrow with hnew | hold
    · obtain ⟨_, hstat, hproc⟩ := processArticle_ok_fields decodeFilter fc sc now a a' hok
      subst hnew
      rw [hproc]
      constructor
      · intro hcontra; cases hcontra
      · intro hcontra; exact absurd hcontra hstat
    · exact hinv row hold
  | drop a hin => exact hinv

theorem pipeStep_idsNodup {decodeFilter : String → Bool × FilterResult}
    {s t : PipeState} (h : PipeStep decodeFilter s t)
    (hnd : idsNodup s.store) : idsNodup t.store := by
  cases h with
  | ingest idv feedId now item hfresh =>
    show idsNodup (firstOrCreate s.store (mkArticle idv feedId now item)).1
    unfold firstOrCreate
    by_cases hc : s.store.any (fun r => r.link = (mkArticle idv feedId now item).link)
    · rw [if_pos hc]; exact hnd
    · rw [if_neg hc]
      unfold idsNodup at hnd ⊢
      rw [List.map_append]
      refine List.Nodup.append hnd (by simp) ?_
      intro x hx hx2
      simp only [List.map_cons, List.map_nil, List.mem_singleton, mkArticle] at hx2
      obtain ⟨row, hrow, hrid⟩ := List.mem_map.mp hx
      exact hfresh row hrow (by rw [hrid, hx2])
  | fetch a hmem hpend => exact hnd
  | save a a' fc sc now hin hok =>
    show idsNodup (saveArticle s.store a')
    unfold idsNodup
    rw [saveArticle_map_id]
    exact hnd
  | drop a hin => exact hnd

theorem nodup_id_inj {store : List Article} (hnd : idsNodup store) {x y : Article}
    (hx : x ∈ store) (hy : y ∈ store) (hid : x.id = y.id) : x = y :=
  List.inj_on_of_nodup_map hnd hx hy hid

/-- One pipeline operation keeps every identifier that maps to only
terminal rows mapping to only terminal rows (and present): a save writes a
terminal row, an ingest inserts under a fresh id, and fetch/drop leave the
store alone. -/
theorem pipeStep_id_terminal {decodeFilter : String → Bool × FilterResult}
    {s t : PipeState} (h : PipeStep decodeFilter s t) (i : Nat)
    (hex : ∃ row ∈ s.store, row.id = i)
    (hterm : ∀ row ∈ s.store, row.id = i → row.status ≠ ArticleStatus.pending) :
    (∃ row ∈ t.store, row.id = i)
    ∧ (∀ row' ∈ t.store, row'.id = i → row'.status ≠ ArticleStatus.pending) := by
  cases h with
  | ingest idv feedId now item hfresh =>
    constructor
    · obtain ⟨row, hrow, hid⟩ := hex
      exact ⟨row, mem_firstOrCreate_left s.store _ hrow, hid⟩
    · intro row' hrow' hid'
      rcases mem_firstOrCreate s.store _ hrow' with hold | hnew
      · exact hterm row' hold hid'
      · exfalso
        obtain ⟨row, hrow, hid⟩ := hex
        have hidv : row'.id = idv := by rw [hnew]; rfl
        exact hfresh row hrow (hid.trans (hid'.symm.trans hidv))
  | fetch a hmem hpend => exact ⟨hex, hterm⟩
  | save a a' fc sc now hin hok =>
    obtain ⟨hid_a, hstat_a, _⟩ := processArticle_ok_fields decodeFilter fc sc now a a' hok
    constructor
    · obtain ⟨row, hrow, hid⟩ := hex
      by_cases hr : row.id = a'.id
      · refine ⟨a', ?_, by rw [← hr]; exact hid⟩
        unfold saveArticle
        exact List.mem_map.mpr ⟨row, hrow, by rw [if_pos hr]⟩
      · exact ⟨row, mem_saveArticle_of_ne a' hrow hr, hid⟩
    · intro row' hrow' hid'
      rcases mem_saveArticle s.store a' hrow' with hnew | hold
      · rw [hnew]; exact hstat_a
      · exact hterm row' hold hid'
  | drop a hin => exact ⟨hex, hterm⟩

/-- Along any run of pipeline operations, an identifier all of whose rows
are terminal never maps to a Pending row again. -/
theorem pipeSteps_id_terminal {decodeFilter : String → Bool × FilterResult}
    {s t : PipeState} (hpath : Relation.ReflTransGen (PipeStep decodeFilter) s t)
    (i : Nat) (hex : ∃ row ∈ s.store, row.id = i)
    (hterm : ∀ row ∈ s.store, row.id = i → row.status ≠ ArticleStatus.pending) :
    ∀ row' ∈ t.store, row'.id = i → row'.status ≠ ArticleStatus.pending := by
  have main : (∃ row ∈ t.store, row.id = i)
      ∧ (∀ row' ∈ t.store, row'.id = i → row'.status ≠ ArticleStatus.pending) := by
    induction hpath with
    | refl => exact ⟨hex, hterm⟩
    | tail _ hstep ih => exact pipeStep_id_terminal hstep i ih.1 ih.2
  exact main.2

theorem pipeReach_inv (decodeFilter : String → Bool × FilterResult) (s : PipeState)
    (h : PipeReach decodeFilter s) : storeInv s.store ∧ idsNodup s.store := by
  unfold PipeReach at h
  induction h with
  | refl =>
    constructor
    · intro a ha; cases ha
    · simp [idsNodup]
  | tail _ hstep ih =>
    exact ⟨pipeStep_storeInv hstep ih.1, pipeStep_idsNodup hstep ih.2⟩

/-- Decoder for the overwrite run: the reply "worth" decodes as worth
reading with reason "r1"; every other reply fails with nothing populated. -/
def dfX : String → Bool × FilterResult :=
  fun r =>
    if r = "worth" then (true, { worth := true, reason := "r1" })
    else (false, { worth := false, reason := "" })

/-- The remote item whose ingestion creates art0. -/
def item0 : RemoteItem := ⟨"t", "l", "c", some 10⟩

/-- Store with the freshly ingested Pending article. -/
def pS1 : PipeState := ⟨[art0], []⟩

/-- One drain has fetched the Pending row. -/
def pS2 : PipeState := ⟨[art0], [art0]⟩

/-- A second, overlapping drain has fetched the same still-Pending row. -/
def pS3 : PipeState := ⟨[art0], [art0, art0]⟩

/-- The row after the first worker saves it Processed. -/
def artProc : Article := { art0 with status := ArticleStatus.processed, summary := "good summary", processedAt := some 1 }

/-- Store after the first worker's save; the second snapshot is still in flight. -/
def pS4 : PipeState := ⟨[artProc], [art0]⟩

/-- The row after the stale second worker overwrites it Filtered. -/
def artFilt : Article := { art0 with status := ArticleStatus.filtered, summary := "", processedAt := some 2 }

/-- Store after the stale save. -/
def pS5 : PipeState := ⟨[artFilt], []⟩

theorem pS4_reach : PipeReach dfX pS4 :=
  Relation.ReflTransGen.tail (b := pS3)
    (Relation.ReflTransGen.tail (b := pS2)
      (Relation.ReflTransGen.tail (b := pS1)
        (Relation.ReflTransGen.single
          (PipeStep.ingest ⟨[], []⟩ 1 1 99 item0 (by intro row h; cases h)))
        (PipeStep.fetch pS1 art0 (by decide) rfl))
      (PipeStep.fetch pS2 art0 (by decide) rfl))
    (PipeStep.save pS3 art0 artProc (.ok "worth") (.ok "good summary") 1 (by decide) rfl)

/-- Counterexample to C5: overlapping drains both fetch the same Pending
row; after the first worker saves it Processed (reachable state pS4), the
stale second worker's unconditional db.Save - a pipeline operation - turns
the terminal row Filtered with a different summary, so a terminal row's
status and summary are not immutable. -/
theorem article_terminal_overwrite_counterexample :
    PipeReach dfX pS4
    ∧ PipeStep dfX pS4 pS5
    ∧ artProc ∈ pS4.store ∧ artProc.status = ArticleStatus.processed
    ∧ pS5.store = [artFilt]
    ∧ artFilt.id = artProc.id
    ∧ artFilt.status ≠ artProc.status
    ∧ artFilt.summary ≠ artProc.summary := by
  refine ⟨pS4_reach, ?_, by decide, rfl, rfl, rfl, by decide, by decide⟩
  exact PipeStep.save pS4 art0 artFilt (.ok "不值得") (.ok "s") 2 (by decide) rfl

/-- C5 (amended): in every pipeline-reachable state, processed_at is unset
exactly on Pending rows and store ids stay unique; once every row of an
identifier is terminal, no later pipeline operation ever makes that
identifier Pending again (terminal never reverts to Pending); freshly
created rows are Pending with processed_at unset; and the only status
write, ProcessArticle's saved row, carries a terminal status together with
the processed timestamp. (Status and summary of a terminal row are not
immutable: a stale worker of an overlapping drain, which fetched the row
while it was still Pending, may overwrite one terminal status/summary with
another - see the counterexample.) -/
theorem article_lifecycle_invariants (decodeFilter : String → Bool × FilterResult) :
    (∀ s, PipeReach decodeFilter s → storeInv s.store ∧ idsNodup s.store)
    ∧ (∀ s t, PipeReach decodeFilter s →
        Relation.ReflTransGen (PipeStep decodeFilter) s t →
        ∀ row ∈ s.store, row.status ≠ ArticleStatus.pending →
        ∀ row' ∈ t.store, row'.id = row.id → row'.status ≠ ArticleStatus.pending)
    ∧ (∀ fc sc now a a', processArticle decodeFilter fc sc now a = .ok a' →
        a'.id = a.id ∧ a'.status ≠ ArticleStatus.pending ∧ a'.processedAt = some now)
    ∧ (∀ idv feedId now item, (mkArticle idv feedId now item).status = ArticleStatus.pending
        ∧ (mkArticle idv feedId now item).processedAt = none) := by
  refine ⟨?_, ?_, ?_, ?_⟩
  · exact fun s h => pipeReach_inv decodeFilter s h
  · intro s t hreach hpath row hrow hrowterm
    have hinv := pipeReach_inv decodeFilter s hreach
    refine pipeSteps_id_terminal hpath row.id ⟨row, hrow, rfl⟩ ?_
    intro row2 hrow2 hid2
    rw [nodup_id_inj hinv.2 hrow2 hrow hid2]
    exact hrowterm
  · exact fun fc sc now a a' h => processArticle_ok_fields decodeFilter fc sc now a a' h
  · exact fun idv feedId now item => ⟨rfl, rfl⟩

/-- The Filtered row a fallback-filtered run of ProcessArticle saves for art1. -/
def art1filtered : Article := { art1 with status := ArticleStatus.filtered, summary := "", processedAt := some 3 }

/-- Witness for C5 (amended): the empty state is reachable and satisfies
the invariant, and a concrete successful ProcessArticle outcome carries a
terminal status with the timestamp set. -/
theorem article_lifecycle_invariants_witness :
    storeInv (⟨[], []⟩ : PipeState).store
    ∧ art1filtered.id = art1.id
    ∧ art1filtered.status ≠ ArticleStatus.pending
    ∧ art1filtered.processedAt = some 3 := by
  have h := article_lifecycle_invariants decodeNever
  refine ⟨(h.1 ⟨[], []⟩ Relation.ReflTransGen.refl).1, ?_⟩
  exact h.2.2.1 (.ok "不值得看") (.error "e") 3 art1 art1filtered (by rfl)

/-! ### Claim theorems: concurrency bound of the drain pool -/

theorem finishState_running (decodeFilter : String → Bool × FilterResult)
    (env : Nat → Nat → ItemEnv) (s : PoolState) (pre post : List (Nat × Article))
    (r : Nat) (a : Article) :
    (finishState decodeFilter env s pre post r a).running = pre ++ post := by
  unfold finishState
  cases processArticle decodeFilter (env r a.id).filterChat (env r a.id).summaryChat
      (env r a.id).now a <;> rfl

theorem finishState_frame (decodeFilter : String → Bool × FilterResult)
    (env : Nat → Nat → ItemEnv) (s : PoolState) (pre post : List (Nat × Article))
    (r : Nat) (a : Article) :
    (finishState decodeFilter env s pre post r a).round = s.round
    ∧ (finishState decodeFilter env s pre post r a).queue = s.queue
    ∧ (finishState decodeFilter env s pre post r a).cancelled = s.cancelled
    ∧ (finishState decodeFilter env s pre post r a).observed = s.observed
    ∧ (finishState decodeFilter env s pre post r a).retval = s.retval
    ∧ (finishState decodeFilter env s pre post r a).dispatchCount = s.dispatchCount
    ∧ s.succ ≤ (finishState decodeFilter env s pre post r a).succ
    ∧ s.failed ≤ (finishState decodeFilter env s pre post r a).failed := by
  unfold finishState
  cases processArticle decodeFilter (env r a.id).filterChat (env r a.id).summaryChat
      (env r a.id).now a <;>
    exact ⟨rfl, rfl, rfl, rfl, rfl, rfl, by simp, by simp⟩

theorem finishState_store (decodeFilter : String → Bool × FilterResult)
    (env : Nat → Nat → ItemEnv) (s : PoolState) (pre post : List (Nat × Article))
    (r : Nat) (a : Article) :
    (finishState decodeFilter env s pre post r a).store = s.store
    ∨ ∃ a', processArticle decodeFilter (env r a.id).filterChat (env r a.id).summaryChat
        (env r a.id).now a = .ok a'
      ∧ (finishState decodeFilter env s pre post r a).store = saveArticle s.store a' := by
  unfold finishState
  cases h : processArticle decodeFilter (env r a.id).filterChat (env r a.id).summaryChat
      (env r a.id).now a with
  | error e => exact Or.inl rfl
  | ok a' => exact Or.inr ⟨a', rfl, rfl⟩

/-- The width invariant: at most 3 slots held, and every running worker was
dispatched by the current batch round. -/
def poolWidthInv (s : PoolState) : Prop :=
  s.running.length ≤ 3 ∧ ∀ p ∈ s.running, p.1 = s.round

theorem poolStep_widthInv {decodeFilter : String → Bool × FilterResult}
    {env : Nat → Nat → ItemEnv} {limit : Nat} {s t : PoolState}
    (h : PoolStep decodeFilter env limit s t) (hw : poolWidthInv s) : poolWidthInv t := by
  obtain ⟨hlen, hround⟩ := hw
  cases h with
  | fetchBatch h1 h2 h3 h4 h5 =>
    constructor
    · simp [h4]
    · intro p hp; rw [h4] at hp; cases hp
  | fetchEmpty h1 h2 h3 h4 h5 => exact ⟨hlen, hround⟩
  | dispatch a rest h1 h2 h3 h4 =>
    constructor
    · simp only [List.length_append, List.length_singleton]
      omega
    · intro p hp
      rcases List.mem_append.mp hp with hold | hnew
      · exact hround p hold
      · rw [List.mem_singleton.mp hnew]
  | finish pre post r a h1 h2 =>
    rw [h2] at hlen hround
    constructor
    · rw [finishState_running]
      calc (pre ++ post).length ≤ (pre ++ (r, a) :: post).length := by simp
        _ ≤ 3 := hlen
    · intro p hp
      rw [finishState_running] at hp
      rw [(finishState_frame decodeFilter env s pre post r a).1]
      refine hround p ?_
      rcases List.mem_append.mp hp with hl | hr
      · exact List.mem_append_left _ hl
      · exact List.mem_append_right _ (List.mem_cons_of_mem _ hr)
  | cancelCtx h1 => exact ⟨hlen, hround⟩
  | observe h1 h2 h3 h4 => exact ⟨hlen, hround⟩
  | returnCancelled h1 h2 h3 => exact ⟨hlen, hround⟩

/-- C1: in any state reachable during a ProcessPendingArticles invocation -
for every batch size and every store - at most 3 workers hold a slot (so at
most 3 Model Gateway calls run simultaneously), and every running worker
belongs to the current batch round: workers of two different batches never
run at the same time, and a new batch only starts once the previous one has
fully joined. -/
theorem processPending_concurrency_bound (decodeFilter : String → Bool × FilterResult)
    (env : Nat → Nat → ItemEnv) (limit : Nat) (store : List Article) (s : PoolState)
    (h : PoolReach decodeFilter env limit store s) :
    s.running.length ≤ 3 ∧ ∀ p ∈ s.running, p.1 = s.round := by
  unfold PoolReach at h
  have : poolWidthInv s := by
    induction h with
    | refl => exact ⟨by simp [initPool], by intro p hp; simp [initPool] at hp⟩
    | tail _ hstep ih => exact poolStep_widthInv hstep ih
  exact this

/-- Witness for C1 at the initial state of an invocation on the empty store. -/
theorem processPending_concurrency_bound_witness :
    (initPool []).running.length ≤ 3 :=
  (processPending_concurrency_bound decodeNever (fun _ _ => ⟨.error "e", .error "e", 0⟩)
    1 [] (initPool []) Relation.ReflTransGen.refl).1

/-! ### Claim theorems: cancellation semantics -/

theorem insertByDateDesc_perm (a : Article) (l : List Article) :
    (insertByDateDesc a l).Perm (a :: l) := by
  induction l with
  | nil => exact List.Perm.refl _
  | cons b bs ih =>
    unfold insertByDateDesc
    by_cases h : b.pubDate < a.pubDate
    · rw [if_pos h]
    · rw [if_neg h]
      exact (List.Perm.cons b ih).trans (List.Perm.swap a b bs)

theorem sortByDateDesc_perm (rows : List Article) : (sortByDateDesc rows).Perm rows := by
  induction rows with
  | nil => exact List.Perm.refl _
  | cons a rest ih =>
    unfold sortByDateDesc
    simp only [List.foldr_cons]
    exact (insertByDateDesc_perm a _).trans (List.Perm.cons a ih)

theorem fetchPending_mem {limit : Nat} {store : List Article} {a : Article}
    (h : a ∈ fetchPending limit store) : a ∈ store ∧ a.status = ArticleStatus.pending := by
  unfold fetchPending at h
  have h2 : a ∈ sortByDateDesc (pendingRows store) := List.mem_of_mem_take h
  have h3 : a ∈ pendingRows store := ((sortByDateDesc_perm _).mem_iff).mp h2
  have h4 := List.mem_filter.mp h3
  exact ⟨h4.1, by simpa using h4.2⟩

theorem fetchPending_ids_nodup {limit : Nat} {store : List Article} (hnd : idsNodup store) :
    ((fetchPending limit store).map Article.id).Nodup := by
  have h1 : (pendingRows store).Sublist store := List.filter_sublist _
  have h2 : ((pendingRows store).map Article.id).Nodup := (h1.map Article.id).nodup hnd
  have h3 : ((sortByDateDesc (pendingRows store)).map Article.id).Nodup :=
    (((sortByDateDesc_perm (pendingRows store)).symm).map Article.id).nodup h2
  exact ((List.take_sublist _ _).map Article.id).nodup h3

/-- In a duplicate-free id list built over a list with a distinguished
middle element, every other element has a different id. -/
theorem middle_id_ne {pre post : List (Nat × Article)} {r : Nat} {a : Article}
    (hnd : ((pre ++ (r, a) :: post).map (fun p => p.2.id)).Nodup) :
    ∀ p ∈ pre ++ post, p.2.id ≠ a.id := by
  intro p hp
  rw [List.map_append, List.map_cons, List.nodup_append] at hnd
  obtain ⟨hpre, hcons, hdisj⟩ := hnd
  rcases List.mem_append.mp hp with hl | hr
  · intro heq
    exact hdisj (List.mem_map.mpr ⟨p, hl, rfl⟩) (by simp [heq])
  · intro heq
    exact (List.nodup_cons.mp hcons).1 (List.mem_map.mpr ⟨p, hr, heq⟩)

/-- The ownership invariant of the pool: the store keys stay unique; every
running or queued row is a Pending row of the store; and no two running or
queued workers own the same row. -/
def poolInv (s : PoolState) : Prop :=
  idsNodup s.store
  ∧ (∀ p ∈ s.running, p.2 ∈ s.store ∧ p.2.status = ArticleStatus.pending)
  ∧ (∀ a ∈ s.queue, a ∈ s.store ∧ a.status = ArticleStatus.pending)
  ∧ (s.running.map (fun p => p.2.id) ++ s.queue.map Article.id).Nodup

theorem poolStep_poolInv {decodeFilter : String → Bool × FilterResult}
    {env : Nat → Nat → ItemEnv} {limit : Nat} {s t : PoolState}
    (h : PoolStep decodeFilter env limit s t) (hinv : poolInv s) : poolInv t := by
  obtain ⟨hnd, hrun, hq, hcomb⟩ := hinv
  cases h with
  | fetchBatch h1 h2 h3 h4 h5 =>
    refine ⟨hnd, ?_, ?_, ?_⟩
    · intro p hp; rw [h4] at hp; cases hp
    · intro a ha
      exact fetchPending_mem ha
    · rw [h4]
      simpa using fetchPending_ids_nodup hnd
  | fetchEmpty h1 h2 h3 h4 h5 => exact ⟨hnd, hrun, hq, hcomb⟩
  | dispatch a rest h1 h2 h3 h4 =>
    refine ⟨hnd, ?_, ?_, ?_⟩
    · intro p hp
      rcases List.mem_append.mp hp with hold | hnew
      · exact hrun p hold
      · rw [List.mem_singleton.mp hnew]
        exact hq a (h3 ▸ List.mem_cons_self a rest)
    · intro b hb
      exact hq b (h3 ▸ List.mem_cons_of_mem a hb)
    · rw [h3] at hcomb
      simpa [List.append_assoc] using hcomb
  | finish pre post r a h1 h2 =>
    have hmem_ra : (r, a) ∈ s.running := by
      rw [h2]; exact List.mem_append_right _ (List.mem_cons_self _ _)
    have ha := hrun (r, a) hmem_ra
    have hsubrun : (pre ++ post).Sublist (pre ++ (r, a) :: post) :=
      List.Sublist.append (List.Sublist.refl pre) (List.sublist_cons_self _ _)
    have hsubmem : ∀ p ∈ pre ++ post, p ∈ s.running := by
      intro p hp
      rw [h2]
      rcases List.mem_append.mp hp with hl | hr
      · exact List.mem_append_left _ hl
      · exact List.mem_append_right _ (List.mem_cons_of_mem _ hr)
    have hrunids : ((pre ++ (r, a) :: post).map (fun p => p.2.id)).Nodup := by
      have := hcomb.of_append_left
      rw [h2] at this
      exact this
    have hidne : ∀ p ∈ pre ++ post, p.2.id ≠ a.id := middle_id_ne hrunids
    have hqne : ∀ b ∈ s.queue, b.id ≠ a.id := by
      intro b hb heq
      have hdisj := (List.nodup_append.mp hcomb).2.2
      refine hdisj ?_ (List.mem_map.mpr ⟨b, hb, heq⟩)
      rw [h2]
      exact List.mem_map.mpr
        ⟨(r, a), List.mem_append_right pre (List.mem_cons_self _ _), rfl⟩
    have hqueue : (finishState decodeFilter env s pre post r a).queue = s.queue :=
      (finishState_frame decodeFilter env s pre post r a).2.1
    have hcombt :
        ((finishState decodeFilter env s pre post r a).running.map (fun p => p.2.id)
          ++ (finishState decodeFilter env s pre post r a).queue.map Article.id).Nodup := by
      rw [finishState_running, hqueue]
      have hcomb2 : ((pre ++ (r, a) :: post).map (fun p => p.2.id)
          ++ s.queue.map Article.id).Nodup := by
        rw [← h2]; exact hcomb
      exact (List.Sublist.append (hsubrun.map _) (List.Sublist.refl _)).nodup hcomb2
    rcases finishState_store decodeFilter env s pre post r a with hsame | ⟨a', hok, hsave⟩
    · refine ⟨by rw [hsame]; exact hnd, ?_, ?_, hcombt⟩
      · intro p hp
        rw [finishState_running] at hp
        rw [hsame]
        exact hrun p (hsubmem p hp)
      · intro b hb
        rw [hqueue] at hb
        rw [hsame]
        exact hq b hb
    · have hid : a'.id = a.id :=
        (processArticle_ok_fields decodeFilter (env r a.id).filterChat (env r a.id).summaryChat
          (env r a.id).now a a' hok).1
      refine ⟨?_, ?_, ?_, hcombt⟩
      · unfold idsNodup
        rw [hsave, saveArticle_map_id]
        exact hnd
      · intro p hp
        rw [finishState_running] at hp
        obtain ⟨hin, hpend⟩ := hrun p (hsubmem p hp)
        rw [hsave]
        exact ⟨mem_saveArticle_of_ne a' hin (by rw [hid]; exact hidne p hp), hpend⟩
      · intro b hb
        rw [hqueue] at hb
        obtain ⟨hin, hpend⟩ := hq b hb
        rw [hsave]
        exact ⟨mem_saveArticle_of_ne a' hin (by rw [hid]; exact hqne b hb), hpend⟩
  | cancelCtx h1 => exact ⟨hnd, hrun, hq, hcomb⟩
  | observe h1 h2 h3 h4 => exact ⟨hnd, hrun, hq, hcomb⟩
  | returnCancelled h1 h2 h3 => exact ⟨hnd, hrun, hq, hcomb⟩

theorem poolStep_terminal_frame {decodeFilter : String → Bool × FilterResult}
    {env : Nat → Nat → ItemEnv} {limit : Nat} {s t : PoolState}
    (h : PoolStep decodeFilter env limit s t) (hinv : poolInv s) :
    ∀ a ∈ s.store, a.status ≠ ArticleStatus.pending → a ∈ t.store := by
  obtain ⟨hnd, hrun, hq, hcomb⟩ := hinv
  cases h with
  | fetchBatch h1 h2 h3 h4 h5 => exact fun a ha _ => ha
  | fetchEmpty h1 h2 h3 h4 h5 => exact fun a ha _ => ha
  | dispatch a rest h1 h2 h3 h4 => exact fun b hb _ => hb
  | finish pre post r a h1 h2 =>
    intro b hb hterm
    have hmem_ra : (r, a) ∈ s.running := by
      rw [h2]; exact List.mem_append_right _ (List.mem_cons_self _ _)
    obtain ⟨hain, hapend⟩ := hrun (r, a) hmem_ra
    rcases finishState_store decodeFilter env s pre post r a with hsame | ⟨a', hok, hsave⟩
    · rw [hsame]; exact hb
    · have hid : a'.id = a.id :=
        (processArticle_ok_fields decodeFilter (env r a.id).filterChat (env r a.id).summaryChat
          (env r a.id).now a a' hok).1
      rw [hsave]
      refine mem_saveArticle_of_ne a' hb ?_
      rw [hid]
      intro hbid
      exact hterm (nodup_id_inj hnd hb hain hbid ▸ hapend)
  | cancelCtx h1 => exact fun a ha _ => ha
  | observe h1 h2 h3 h4 => exact fun a ha _ => ha
  | returnCancelled h1 h2 h3 => exact fun a ha _ => ha

theorem poolStep_after_observe {decodeFilter : String → Bool × FilterResult}
    {env : Nat → Nat → ItemEnv} {limit : Nat} {s t : PoolState}
    (h : PoolStep decodeFilter env limit s t) (hobs : s.observed = true) :
    t.observed = true
    ∧ t.dispatchCount = s.dispatchCount
    ∧ (t.retval = s.retval ∨ t.retval = some true)
    ∧ s.succ ≤ t.succ ∧ s.failed ≤ t.failed := by
  cases h with
  | fetchBatch h1 h2 h3 h4 h5 => rw [hobs] at h2; cases h2
  | fetchEmpty h1 h2 h3 h4 h5 => rw [hobs] at h2; cases h2
  | dispatch a rest h1 h2 h3 h4 => rw [hobs] at h2; cases h2
  | finish pre post r a h1 h2 =>
    obtain ⟨_, _, _, hob, hret, hdc, hsucc, hfail⟩ :=
      finishState_frame decodeFilter env s pre post r a
    exact ⟨hob.trans hobs, hdc, Or.inl hret, hsucc, hfail⟩
  | cancelCtx h1 => exact ⟨hobs, rfl, Or.inl rfl, le_refl _, le_refl _⟩
  | observe h1 h2 h3 h4 => rw [hobs] at h3; cases h3
  | returnCancelled h1 h2 h3 => exact ⟨hobs, rfl, Or.inr rfl, le_refl _, le_refl _⟩

theorem poolStep_retvalInv {decodeFilter : String → Bool × FilterResult}
    {env : Nat → Nat → ItemEnv} {limit : Nat} {s t : PoolState}
    (h : PoolStep decodeFilter env limit s t)
    (hi : ∀ b, s.retval = some b → s.running = []) :
    ∀ b, t.retval = some b → t.running = [] := by
  cases h with
  | fetchBatch h1 h2 h3 h4 h5 => intro b hb; rw [h1] at hb; cases hb
  | fetchEmpty h1 h2 h3 h4 h5 => intro b _; exact h4
  | dispatch a rest h1 h2 h3 h4 => intro b hb; rw [h1] at hb; cases hb
  | finish pre post r a h1 h2 =>
    intro b hb
    rw [(finishState_frame decodeFilter env s pre post r a).2.2.2.2.1, h1] at hb
    cases hb
  | cancelCtx h1 => exact hi
  | observe h1 h2 h3 h4 => exact hi
  | returnCancelled h1 h2 h3 => intro b _; exact h3

theorem poolReach_poolInv {decodeFilter : String → Bool × FilterResult}
    {env : Nat → Nat → ItemEnv} {limit : Nat} {store0 : List Article} {s : PoolState}
    (h0 : idsNodup store0) (h : PoolReach decodeFilter env limit store0 s) : poolInv s := by
  unfold PoolReach at h
  induction h with
  | refl =>
    refine ⟨h0, ?_, ?_, ?_⟩ <;> simp [initPool]
  | tail _ hstep ih => exact poolStep_poolInv hstep ih

theorem poolReach_retvalInv {decodeFilter : String → Bool × FilterResult}
    {env : Nat → Nat → ItemEnv} {limit : Nat} {store0 : List Article} {s : PoolState}
    (h : PoolReach decodeFilter env limit store0 s) :
    ∀ b, s.retval = some b → s.running = [] := by
  unfold PoolReach at h
  induction h with
  | refl => intro b hb; cases hb
  | tail _ hstep ih => exact poolStep_retvalInv hstep ih

/-- C3: once the drain loop has observed cancellation, it dispatches no
further items (the dispatch count is frozen); the only return it can make
is the cancellation one, and any returned state has an empty worker list -
every already-dispatched worker of the current batch was waited for and no
limiter slot stays held; every row holding a terminal status when the
cancellation was observed still holds it at any later point; and the
succeeded/failed counters accumulated so far are preserved (they only
grow). -/
theorem processPending_cancellation (decodeFilter : String → Bool × FilterResult)
    (env : Nat → Nat → ItemEnv) (limit : Nat) (store0 : List Article)
    (h0 : idsNodup store0) (s : PoolState)
    (hreach : PoolReach decodeFilter env limit store0 s) (hobs : s.observed = true)
    (t : PoolState) (hst : Relation.ReflTransGen (PoolStep decodeFilter env limit) s t) :
    t.observed = true
    ∧ t.dispatchCount = s.dispatchCount
    ∧ (s.retval = none → ∀ b, t.retval = some b → b = true)
    ∧ (∀ b, t.retval = some b → t.running = [])
    ∧ (∀ a ∈ s.store, a.status ≠ ArticleStatus.pending → a ∈ t.store)
    ∧ s.succ ≤ t.succ ∧ s.failed ≤ t.failed := by
  have hinv_s : poolInv s := poolReach_poolInv h0 hreach
  have main : t.observed = true ∧ t.dispatchCount = s.dispatchCount
      ∧ (t.retval = s.retval ∨ t.retval = some true)
      ∧ (∀ a ∈ s.store, a.status ≠ ArticleStatus.pending → a ∈ t.store)
      ∧ s.succ ≤ t.succ ∧ s.failed ≤ t.failed ∧ poolInv t := by
    induction hst with
    | refl => exact ⟨hobs, rfl, Or.inl rfl, fun a ha _ => ha, le_refl _, le_refl _, hinv_s⟩
    | tail _ hstep ih =>
      obtain ⟨iobs, idc, iret, iframe, isucc, ifail, iinv⟩ := ih
      obtain ⟨hob2, hdc2, hret2, hsucc2, hfail2⟩ := poolStep_after_observe hstep iobs
      refine ⟨hob2, hdc2.trans idc, ?_, ?_, isucc.trans hsucc2, ifail.trans hfail2,
        poolStep_poolInv hstep iinv⟩
      · rcases hret2 with heq | htrue
        · rw [heq]; exact iret
        · exact Or.inr htrue
      · intro a ha hterm
        exact poolStep_terminal_frame hstep iinv a (iframe a ha hterm) hterm
  obtain ⟨hob, hdc, hret, hframe, hsucc, hfail⟩ := main
  refine ⟨hob, hdc, ?_, ?_, hframe, hsucc, hfail.1⟩
  · intro hnone b hb
    rcases hret with heq | htrue
    · rw [heq, hnone] at hb; cases hb
    · rw [htrue] at hb; exact (Option.some.inj hb).symm
  · exact poolReach_retvalInv (Relation.ReflTransGen.trans hreach hst)

/-- A concrete worker environment that always fails the filter call. -/
def envW : Nat → Nat → ItemEnv := fun _ _ => ⟨.error "e", .error "e", 0⟩

/-- Concrete run for the cancellation witness: initial state on one pending
article. -/
def sW0 : PoolState := initPool [art0]

/-- After fetching the first batch. -/
def sW1 : PoolState := { sW0 with queue := fetchPending 1 [art0], round := 1 }

/-- After the context is cancelled. -/
def sW2 : PoolState := { sW1 with cancelled := true }

/-- After the loop observes the cancellation at the per-item select. -/
def sW3 : PoolState := { sW2 with observed := true }

/-- After the loop joins the (empty) WaitGroup and returns ctx.Err. -/
def sW4 : PoolState := { sW3 with retval := some true }

theorem sW3_reach : PoolReach decodeNever envW 1 [art0] sW3 :=
  Relation.ReflTransGen.tail (b := sW2)
    (Relation.ReflTransGen.tail (b := sW1)
      (Relation.ReflTransGen.single (PoolStep.fetchBatch sW0 rfl rfl rfl rfl (by decide)))
      (PoolStep.cancelCtx sW1 rfl))
    (PoolStep.observe sW2 rfl rfl rfl (by decide))

/-- Witness for C3: in the concrete run that observes cancellation and then
returns, the observation persists and the frozen dispatch count carries to
the returned state. -/
theorem processPending_cancellation_witness :
    sW4.observed = true ∧ sW4.dispatchCount = sW3.dispatchCount := by
  have h := processPending_cancellation decodeNever envW 1 [art0]
    (by unfold idsNodup; decide)
    sW3 sW3_reach rfl sW4
    (Relation.ReflTransGen.single (PoolStep.returnCancelled sW3 rfl rfl rfl))
  exact ⟨h.1, h.2.1⟩

/-! ### Claim theorems: drain termination -/

theorem saveArticle_no_match {store : List Article} {a : Article}
    (h : ∀ row ∈ store, row.id ≠ a.id) : saveArticle store a = store := by
  unfold saveArticle
  conv_rhs => rw [← List.map_id store]
  refine List.map_congr_left ?_
  intro row hrow
  rw [if_neg (h row hrow)]
  rfl

theorem pendingCount_save_terminal : ∀ {store : List Article} {a a' : Article},
    idsNodup store → a ∈ store → a.status = ArticleStatus.pending →
    a'.id = a.id → a'.status ≠ ArticleStatus.pending →
    pendingCount store = pendingCount (saveArticle store a') + 1 := by
  intro store
  induction store with
  | nil => intro a a' _ hmem; cases hmem
  | cons b rest ih =>
    intro a a' hnd hmem hpend hid hterm
    have hnd_rest : idsNodup rest := by
      unfold idsNodup at hnd ⊢
      exact (List.nodup_cons.mp hnd).2
    have hb_notin : b.id ∉ rest.map Article.id := by
      unfold idsNodup at hnd
      exact (List.nodup_cons.mp hnd).1
    by_cases hba : b = a
    · subst hba
      have hsave : saveArticle (b :: rest) a' = a' :: rest := by
        unfold saveArticle
        rw [List.map_cons, if_pos hid.symm]
        have : ∀ row ∈ rest, row.id ≠ a'.id := by
          intro row hrow heq
          exact hb_notin (List.mem_map.mpr ⟨row, hrow, by rw [heq]; exact hid⟩)
        have h2 := saveArticle_no_match this
        unfold saveArticle at h2
        rw [h2]
      rw [hsave]
      unfold pendingCount pendingRows
      simp [List.filter_cons, hpend, hterm]
    · have hamem : a ∈ rest := by
        rcases List.mem_cons.mp hmem with h1 | h2
        · exact absurd h1.symm hba
        · exact h2
      have hbid : b.id ≠ a'.id := by
        rw [hid]
        intro heq
        exact hb_notin (List.mem_map.mpr ⟨a, hamem, heq.symm⟩)
      have hsave : saveArticle (b :: rest) a' = b :: saveArticle rest a' := by
        unfold saveArticle
        rw [List.map_cons, if_neg hbid]
      rw [hsave]
      have hrec := ih hnd_rest hamem hpend hid hterm
      unfold pendingCount pendingRows at hrec ⊢
      by_cases hbp : b.status = ArticleStatus.pending
      · simp [List.filter_cons, hbp, hrec]
      · simp [List.filter_cons, hbp, hrec]

theorem drainBatch_success (decodeFilter : String → Bool × FilterResult)
    (env : Nat → Nat → ItemEnv) (r : Nat) :
    ∀ (batch store : List Article) (succ failed : Nat),
    idsNodup store →
    (∀ a ∈ batch, a ∈ store ∧ a.status = ArticleStatus.pending) →
    ((batch.map Article.id).Nodup) →
    (∀ a ∈ batch, ∃ a', processArticle decodeFilter (env r a.id).filterChat
        (env r a.id).summaryChat (env r a.id).now a = .ok a') →
    pendingCount (drainBatch decodeFilter env r batch store succ failed).1 + batch.length
      = pendingCount store
    ∧ idsNodup (drainBatch decodeFilter env r batch store succ failed).1 := by
  intro batch
  induction batch with
  | nil => intro store succ failed hnd _ _ _; exact ⟨rfl, hnd⟩
  | cons a rest ih =>
    intro store succ failed hnd hmem hbnd hok
    obtain ⟨a', hok_a⟩ := hok a (List.mem_cons_self a rest)
    obtain ⟨hid, hterm, _⟩ := processArticle_ok_fields decodeFilter _ _ _ a a' hok_a
    obtain ⟨hain, hapend⟩ := hmem a (List.mem_cons_self a rest)
    have hstep : drainBatch decodeFilter env r (a :: rest) store succ failed =
        drainBatch decodeFilter env r rest (saveArticle store a') (succ + 1) failed := by
      unfold drainBatch
      rw [List.foldl_cons]
      unfold processOne
      rw [hok_a]
    have hnd2 : idsNodup (saveArticle store a') := by
      unfold idsNodup
      rw [saveArticle_map_id]
      exact hnd
    have hane : ∀ b ∈ rest, b.id ≠ a.id := by
      intro b hb heq
      exact (List.nodup_cons.mp (by simpa using hbnd)).1 (List.mem_map.mpr ⟨b, hb, heq⟩)
    have hmem2 : ∀ b ∈ rest, b ∈ saveArticle store a' ∧ b.status = ArticleStatus.pending := by
      intro b hb
      obtain ⟨hbin, hbpend⟩ := hmem b (List.mem_cons_of_mem a hb)
      exact ⟨mem_saveArticle_of_ne a' hbin (by rw [hid]; exact hane b hb), hbpend⟩
    have hcount : pendingCount store = pendingCount (saveArticle store a') + 1 :=
      pendingCount_save_terminal hnd hain hapend hid hterm
    obtain ⟨ihc, ihnd⟩ := ih (saveArticle store a') (succ + 1) failed hnd2 hmem2
      (by simpa using (List.nodup_cons.mp (by simpa using hbnd)).2)
      (fun b hb => hok b (List.mem_cons_of_mem a hb))
    rw [hstep]
    refine ⟨?_, ihnd⟩
    rw [List.length_cons]
    omega

theorem fetchPending_empty_of_no_pending {limit : Nat} {store : List Article}
    (h : pendingCount store = 0) : fetchPending limit store = [] := by
  unfold pendingCount at h
  have h2 : pendingRows store = [] := List.eq_nil_of_length_eq_zero h
  unfold fetchPending
  rw [h2]
  simp [sortByDateDesc]

theorem pending_zero_of_fetch_empty {limit : Nat} {store : List Article}
    (hlim : 1 ≤ limit) (h : fetchPending limit store = []) : pendingCount store = 0 := by
  unfold fetchPending at h
  rcases List.take_eq_nil_iff.mp h with h0 | hnil
  · omega
  · have hlen := (sortByDateDesc_perm (pendingRows store)).length_eq
    rw [hnil] at hlen
    simp only [List.length_nil] at hlen
    unfold pendingCount
    omega

theorem drainLoop_some_fetch_empty (decodeFilter : String → Bool × FilterResult)
    (env : Nat → Nat → ItemEnv) (limit : Nat) :
    ∀ (fuel r : Nat) (store : List Article) (succ failed : Nat)
      (result : List Article × Nat × Nat),
    drainLoop decodeFilter env limit fuel r store succ failed = some result →
    fetchPending limit result.1 = [] := by
  intro fuel
  induction fuel with
  | zero => intro r store succ failed result h; cases h
  | succ n ih =>
    intro r store succ failed result h
    unfold drainLoop at h
    by_cases he : (fetchPending limit store).isEmpty
    · rw [if_pos he] at h
      obtain rfl : (store, succ, failed) = result := Option.some.inj h
      exact List.isEmpty_iff.mp he
    · rw [if_neg he] at h
      exact ih (r + 1) _ _ _ result h

theorem drainLoop_success_terminates (decodeFilter : String → Bool × FilterResult)
    (env : Nat → Nat → ItemEnv) (limit : Nat) (hlim : 1 ≤ limit)
    (hok : ∀ (r : Nat) (a : Article), a.status = ArticleStatus.pending →
      ∃ a', processArticle decodeFilter (env r a.id).filterChat
        (env r a.id).summaryChat (env r a.id).now a = .ok a') :
    ∀ (n : Nat) (store : List Article) (r succ failed : Nat),
    idsNodup store → pendingCount store ≤ n →
    ∃ result, drainLoop decodeFilter env limit (n + 1) r store succ failed = some result
      ∧ pendingCount result.1 = 0 := by
  intro n
  induction n with
  | zero =>
    intro store r succ failed hnd hpc
    have h0 : pendingCount store = 0 := Nat.le_zero.mp hpc
    have hfetch : fetchPending limit store = [] := fetchPending_empty_of_no_pending h0
    refine ⟨(store, succ, failed), ?_, h0⟩
    unfold drainLoop
    rw [if_pos (List.isEmpty_iff.mpr hfetch)]
  | succ n ih =>
    intro store r succ failed hnd hpc
    by_cases hfe : fetchPending limit store = []
    · have h0 : pendingCount store = 0 := pending_zero_of_fetch_empty hlim hfe
      refine ⟨(store, succ, failed), ?_, h0⟩
      unfold drainLoop
      rw [if_pos (List.isEmpty_iff.mpr hfe)]
    · have hbatchmem : ∀ a ∈ fetchPending limit store,
          a ∈ store ∧ a.status = ArticleStatus.pending := fun a ha => fetchPending_mem ha
      have hbatchlen : 1 ≤ (fetchPending limit store).length := by
        rcases hlist : fetchPending limit store with _ | ⟨x, xs⟩
        · exact absurd hlist hfe
        · simp
      obtain ⟨hcount, hnd2⟩ := drainBatch_success decodeFilter env r
        (fetchPending limit store) store succ failed hnd hbatchmem
        (fetchPending_ids_nodup hnd)
        (fun a ha => hok r a (fetchPending_mem ha).2)
      have hpc2 : pendingCount
          (drainBatch decodeFilter env r (fetchPending limit store) store succ failed).1 ≤ n := by
        omega
      obtain ⟨result, hres, hrespc⟩ := ih
        (drainBatch decodeFilter env r (fetchPending limit store) store succ failed).1
        (r + 1)
        (drainBatch decodeFilter env r (fetchPending limit store) store succ failed).2.1
        (drainBatch decodeFilter env r (fetchPending limit store) store succ failed).2.2
        hnd2 hpc2
      refine ⟨result, ?_, hrespc⟩
      unfold drainLoop
      rw [if_neg (by simpa [List.isEmpty_iff] using hfe)]
      exact hres

theorem drainLoop_fail_none :
    ∀ (fuel r succ failed : Nat),
    drainLoop decodeNever envW 1 fuel r [art0] succ failed = none := by
  intro fuel
  induction fuel with
  | zero => intro r succ failed; rfl
  | succ n ih =>
    intro r succ failed
    unfold drainLoop
    have hf : fetchPending 1 [art0] = [art0] := by decide
    rw [hf]
    have hb : drainBatch decodeNever envW r [art0] [art0] succ failed =
        ([art0], succ, failed + 1) := rfl
    rw [if_neg (by simp)]
    rw [hb]
    exact ih (r + 1) succ (failed + 1)

/-- Counterexample to C2: on a store holding one Pending article whose
processing always fails (every filter-stage gateway call errors, so the
item stays Pending), ProcessPendingArticles never terminates - the drain
loop re-fetches the same Pending row forever, for any amount of fuel,
although the context is never cancelled. -/
theorem processPending_nontermination_counterexample :
    ¬ drainTerminates decodeNever envW 1 [art0] := by
  rintro ⟨fuel, hsome⟩
  unfold processPendingArticles at hsome
  rw [if_neg (by decide)] at hsome
  rw [drainLoop_fail_none fuel 0 0 0] at hsome
  cases hsome

/-- C2 (amended): the drain loop's only exit is a batch fetch returning zero
rows, and when no per-item processing fails - every ProcessArticle attempt
saves a terminal row - ProcessPendingArticles terminates (fuel
pendingCount+1 suffices) with zero Pending rows left; an item whose
processing persistently fails stays Pending and is re-fetched forever, so
the call does not return then. -/
theorem processPending_drain_terminates (decodeFilter : String → Bool × FilterResult)
    (env : Nat → Nat → ItemEnv) (limit : Nat) (store : List Article)
    (hnd : idsNodup store) (hlim : 1 ≤ limit)
    (hok : ∀ (r : Nat) (a : Article), a.status = ArticleStatus.pending →
      ∃ a', processArticle decodeFilter (env r a.id).filterChat
        (env r a.id).summaryChat (env r a.id).now a = .ok a') :
    (∃ result,
      processPendingArticles decodeFilter env limit (pendingCount store + 1) store = some result
      ∧ pendingCount result.1 = 0
      ∧ fetchPending limit result.1 = [])
    ∧ (∀ (fuel r succ failed : Nat) (store' : List Article) (result : List Article × Nat × Nat),
        drainLoop decodeFilter env limit fuel r store' succ failed = some result →
        fetchPending limit result.1 = []) := by
  constructor
  · unfold processPendingArticles
    by_cases h0 : pendingCount store = 0
    · refine ⟨(store, 0, 0), ?_, h0, fetchPending_empty_of_no_pending h0⟩
      rw [if_pos h0]
    · rw [if_neg h0]
      obtain ⟨result, hres, hrespc⟩ := drainLoop_success_terminates decodeFilter env limit
        hlim hok (pendingCount store) store 0 0 0 hnd (le_refl _)
      exact ⟨result, hres, hrespc, fetchPending_empty_of_no_pending hrespc⟩
  · intro fuel r succ failed store' result h
    exact drainLoop_some_fetch_empty decodeFilter env limit fuel r store' succ failed result h

/-- A worker environment whose filter call always replies with the
non-worth marker, so every ProcessArticle attempt succeeds (Filtered). -/
def envOK : Nat → Nat → ItemEnv := fun _ _ => ⟨.ok "不值得", .error "x", 0⟩

/-- Witness for C2 (amended): on one Pending article under the always
succeeding environment, the drain returns within pendingCount+1 rounds. -/
theorem processPending_drain_terminates_witness :
    (processPendingArticles decodeNever envOK 1 (pendingCount [art0] + 1) [art0]).isSome
      = true := by
  obtain ⟨result, hres, hpc, hfe⟩ := (processPending_drain_terminates decodeNever envOK 1
    [art0] (by unfold idsNodup; decide) (by decide)
    (fun r a ha =>
      ⟨{ a with status := ArticleStatus.filtered, summary := "", processedAt := some 0 }, rfl⟩)).1
  rw [hres]
  rfl
